import Mathlib

/-!
Verification of the dom-to-image-more snapshot-and-serialization pipeline.

The repository ships only the TypeScript declaration file
`src/types/index.d.ts` (the `DomToImage` interface and its `Options`
record); the implementation script itself is not part of the analyzed
sources.  The pipeline below is therefore a shallow embedding modelled
from the specification (spec.md sections 3-5 and 7), with the option
record mirroring `Options` from `src/types/index.d.ts`.
-/

namespace DomToImageMore

/-- Modelled from the spec: resource identifiers (image URLs and the like)
handled by the Resource Inliner of the missing implementation script. -/
abbrev Url := String

/-- Modelled from the spec: embedded resource data (a data URL payload)
produced by the Resource Inliner of the missing implementation script. -/
abbrev Data := String

/-- Modelled from the spec: a SourceNode of the live document tree (spec
section 3), read-only input to the missing implementation script.  Each node
carries its identity, tag, inline styles, an optional image resource
reference, its measured box, and its children in document order. -/
inductive SNode where
  | mk (id : Nat) (tag : String) (styles : List (String × String))
       (src : Option Url) (width height : Nat) (children : List SNode)

def SNode.id : SNode → Nat
  | .mk i _ _ _ _ _ _ => i

def SNode.tag : SNode → String
  | .mk _ t _ _ _ _ _ => t

def SNode.styles : SNode → List (String × String)
  | .mk _ _ s _ _ _ _ => s

def SNode.src : SNode → Option Url
  | .mk _ _ _ u _ _ _ => u

def SNode.width : SNode → Nat
  | .mk _ _ _ _ w _ _ => w

def SNode.height : SNode → Nat
  | .mk _ _ _ _ _ h _ => h

def SNode.children : SNode → List SNode
  | .mk _ _ _ _ _ _ cs => cs

/-- Modelled from the spec: a CloneNode (spec section 3), the offline copy
built by the Clone Builder of the missing implementation script.  Its style
is the attached StyleSnapshot and its `src` holds embedded data rather than
an external reference. -/
inductive Clone where
  | mk (id : Nat) (tag : String) (style : List (String × String))
       (src : Option Data) (children : List Clone)

def Clone.id : Clone → Nat
  | .mk i _ _ _ _ => i

def Clone.tag : Clone → String
  | .mk _ t _ _ _ => t

def Clone.style : Clone → List (String × String)
  | .mk _ _ s _ _ => s

def Clone.src : Clone → Option Data
  | .mk _ _ _ u _ => u

def Clone.children : Clone → List Clone
  | .mk _ _ _ _ cs => cs

/-- Modelled from the spec: attaching freshly cloned children to a clone
(the recurse-children step of the per-node state machine, spec 4.3). -/
def Clone.attach (c : Clone) (ks : List Clone) : Clone :=
  .mk c.id c.tag c.style c.src (c.children ++ ks)

/-- Modelled from the spec: the style-caching mode (`styleCaching` in
`src/types/index.d.ts`), controlling StyleCacheKey precision. -/
inductive StyleCaching where
  | strict
  | relaxed
deriving DecidableEq

/-- Modelled from the spec: the node signature from which the relaxed
StyleCacheKey is derived (the node's own tag/attributes, spec section 3). -/
structure Sig where
  tag : String
  styles : List (String × String)
  src : Option Url
deriving DecidableEq

def sigOf (n : SNode) : Sig :=
  ⟨n.tag, n.styles, n.src⟩

/-- Modelled from the spec: the immutable RenderOptions record of one
conversion call, mirroring `Options` of `src/types/index.d.ts` (fields not
needed by any analyzed property, such as the JPEG quality and the CORS
proxy descriptor, are omitted). -/
structure RenderOptions where
  filter : Option (SNode → Bool) := none
  bgcolor : Option String := none
  width : Option Nat := none
  height : Option Nat := none
  style : List (String × String) := []
  imagePlaceholder : Option Data := none
  cacheBust : Bool := false
  filterStyles : Option (String → String → Bool) := none
  adjustClonedNode : Option (SNode → Clone → Bool → Clone) := none
  onclone : Option (Clone → Clone) := none
  useCredentials : Bool := false
  useCredentialsFilters : List String := []
  copyDefaultStyles : Bool := true
  styleCaching : StyleCaching := .strict
  scale : Nat := 1

/-- Modelled from the spec: the network environment seen by one conversion:
a static server mapping each resource URL to its content, or `none` when
the fetch fails (spec 4.1).  The content of a static resource does not
depend on appended cache-busting query parameters. -/
abbrev Env := Url → Option Data

/-- Modelled from the spec: the error taxonomy of spec section 7; in this
model the only failure source is an unrecoverable resource fetch. -/
inductive ConvError where
  | resourceFetchFailure (url : Url)
deriving DecidableEq

/-- Association-list lookup used for the operation-scoped caches. -/
def lookupA {κ β : Type} [DecidableEq κ] (k : κ) : List (κ × β) → Option β
  | [] => none
  | (k', v) :: rest => if k' = k then some v else lookupA k rest

/-- Modelled from the spec: the conversion-operation state (spec section 3):
the operation-owned ResourceRecord cache and StyleCacheKey cache, plus ghost
logs of the observable events (fetches issued, raw request URLs, clone-hook
invocations, filter evaluations). -/
structure St where
  resCache : List ((Url × Bool) × Option Data) := []
  styleCache : List ((List String × Sig) × List (String × String)) := []
  fetchLog : List (Url × Bool) := []
  rawLog : List Url := []
  hookLog : List (Nat × Bool) := []
  filterLog : List Nat := []

def initSt : St := {}

/-- Modelled from the spec: per-resource credential-mode choice (spec 4.1):
the URL is tested against the configured credential-filter patterns,
falling back to the global credentials flag when none are configured. -/
def credFor (opts : RenderOptions) (u : Url) : Bool :=
  match opts.useCredentialsFilters with
  | [] => opts.useCredentials
  | ps => opts.useCredentials && ps.any (fun p => p.isPrefixOf u)

/-- Modelled from the spec: cache-busting (spec 4.1) appends the current
time as a query parameter to the requested URL when `cacheBust` is set. -/
def requestUrl (opts : RenderOptions) (ts : String) (u : Url) : Url :=
  if opts.cacheBust then u ++ "?ts=" ++ ts else u

/-- Modelled from the spec: the Resource Inliner fetch step (spec 4.1),
memoized per (normalized URL, credential mode) in the operation-scoped
cache; a cache miss issues one fetch and records it. -/
def inlineResource (opts : RenderOptions) (env : Env) (ts : String)
    (st : St) (u : Url) : St × Option Data :=
  match lookupA (u, credFor opts u) st.resCache with
  | some r => (st, r)
  | none =>
    ({ st with resCache := ((u, credFor opts u), env u) :: st.resCache,
               fetchLog := st.fetchLog ++ [(u, credFor opts u)],
               rawLog := st.rawLog ++ [requestUrl opts ts u] }, env u)

/-- Modelled from the spec: the failure policy of the Resource Inliner
(spec 4.1): a failed fetch yields the configured placeholder when present,
otherwise a rejected resource naming the failing reference. -/
def resourcePolicy (opts : RenderOptions) (u : Url) (r : Option Data) :
    Except ConvError Data :=
  match r with
  | some d => .ok d
  | none =>
    match opts.imagePlaceholder with
    | some ph => .ok ph
    | none => .error (.resourceFetchFailure u)

def keysOf (l : List (String × String)) : List String :=
  l.map Prod.fst

/-- Merge of two property lists where the second overrides the first;
untouched properties of the first remain explicit. -/
def mergeAssoc (lo hi : List (String × String)) : List (String × String) :=
  hi ++ lo.filter (fun kv => decide (kv.1 ∉ keysOf hi))

/-- Modelled from the spec: the user-agent baseline styles for a tag,
seeded when `copyDefaultStyles` is enabled (spec 4.2). -/
def uaDefault (tag : String) : List (String × String) :=
  [("display", if tag = "span" ∨ tag = "img" then "inline" else "block"),
   ("margin", "0px"),
   ("padding", "0px")]

/-- Modelled from the spec: the Style Resolver computation (spec 4.2): the
effective style of a node from its ancestor-tag chain and its own
signature — user-agent baseline (when enabled), inherited cascade context,
then the node's own declarations, filtered by the caller's style-property
predicate. -/
def computeStyleK (opts : RenderOptions) (chain : List String) (s : Sig) :
    List (String × String) :=
  let base := if opts.copyDefaultStyles then uaDefault s.tag else []
  let inh := [("--ancestry", String.intercalate ">" chain)]
  let merged := mergeAssoc (mergeAssoc base inh) s.styles
  match opts.filterStyles with
  | none => merged
  | some p => merged.filter (fun kv => p s.tag kv.1)

/-- Modelled from the spec: the StyleCacheKey (spec section 3): under
strict mode it incorporates the full ancestor-tag chain; under relaxed
mode it is derived from the node's own signature only. -/
def styleKey (opts : RenderOptions) (chain : List String) (s : Sig) :
    List String × Sig :=
  match opts.styleCaching with
  | .strict => (chain, s)
  | .relaxed => ([], s)

/-- Modelled from the spec: the Style Resolver with its operation-scoped
cache (spec 4.2): look up by StyleCacheKey, reuse on hit, compute and
store on miss. -/
def resolveStyle (opts : RenderOptions) (st : St) (chain : List String)
    (s : Sig) : St × List (String × String) :=
  match lookupA (styleKey opts chain s) st.styleCache with
  | some snap => (st, snap)
  | none =>
    ({ st with styleCache :=
        (styleKey opts chain s, computeStyleK opts chain s) :: st.styleCache },
     computeStyleK opts chain s)

/-- The filter predicate in effect: the configured one, or accept-all. -/
def effFilter (opts : RenderOptions) (n : SNode) : Bool :=
  match opts.filter with
  | none => true
  | some p => p n

/-- Modelled from the spec: the resource-inline step of the per-node state
machine (spec 4.3): a node with no resource reference passes through; an
image-bearing node is routed through the Resource Inliner and its failure
policy, the resulting embedded data replacing the original reference. -/
def inlineSrc (opts : RenderOptions) (env : Env) (ts : String) (st : St)
    (src : Option Url) : Except ConvError (Option Data × St) :=
  match src with
  | none => .ok (none, st)
  | some u =>
    match inlineResource opts env ts st u with
    | (st2, r) =>
      match resourcePolicy opts u r with
      | .error e => .error e
      | .ok d => .ok (some d, st2)

/-- Modelled from the spec: the pre-children `adjustClonedNode` call
(phase flag false, children not yet present); the hook's returned node
replaces the clone (spec 4.3).  The invocation is recorded in the ghost
hook log. -/
def preHook (opts : RenderOptions) (n : SNode) (c : Clone) (st : St) :
    Clone × St :=
  match opts.adjustClonedNode with
  | none => (c, st)
  | some f => (f n c false, { st with hookLog := st.hookLog ++ [(n.id, false)] })

/-- Modelled from the spec: the post-children `adjustClonedNode` call
(phase flag true, children cloned and attached); the hook's returned node
is what propagates upward (spec 4.3). -/
def postHook (opts : RenderOptions) (n : SNode) (c : Clone) (st : St) :
    Clone × St :=
  match opts.adjustClonedNode with
  | none => (c, st)
  | some f => (f n c true, { st with hookLog := st.hookLog ++ [(n.id, true)] })

/-- Modelled from the spec: the filter-check of the child walk (spec 4.3):
evaluating the configured predicate on a visited child is recorded in the
ghost filter log. -/
def stepFilter (opts : RenderOptions) (st : St) (k : SNode) : St :=
  match opts.filter with
  | none => st
  | some _ => { st with filterLog := st.filterLog ++ [k.id] }

mutual

/-- Modelled from the spec: the Clone Builder per-node state machine
(spec 4.3): style-resolve, resource-inline, structural clone, pre-children
`adjustClonedNode` call (phase flag false), recurse over children, attach,
post-children `adjustClonedNode` call (phase flag true). -/
def cloneNode (opts : RenderOptions) (env : Env) (ts : String)
    (chain : List String) (st : St) (n : SNode) :
    Except ConvError (Clone × St) :=
  match n with
  | .mk i tag styles src w h children =>
    match resolveStyle opts st chain ⟨tag, styles, src⟩ with
    | (st1, snap) =>
      match inlineSrc opts env ts st1 src with
      | .error e => .error e
      | .ok (isrc, st2) =>
        match preHook opts (.mk i tag styles src w h children)
            (.mk i tag snap isrc []) st2 with
        | (c1, st3) =>
          match cloneKids opts env ts (chain ++ [tag]) st3 children with
          | .error e => .error e
          | .ok (kids, st4) =>
            .ok (postHook opts (.mk i tag styles src w h children)
                  (c1.attach kids) st4)

/-- Modelled from the spec: the Clone Builder child walk (spec 4.3): the
filter predicate is evaluated on each visited child (never on the root);
a child on which it returns false is excluded with its entire subtree. -/
def cloneKids (opts : RenderOptions) (env : Env) (ts : String)
    (chain : List String) (st : St) (l : List SNode) :
    Except ConvError (List Clone × St) :=
  match l with
  | [] => .ok ([], st)
  | k :: rest =>
    if effFilter opts k then
      match cloneNode opts env ts chain (stepFilter opts st k) k with
      | .error e => .error e
      | .ok (c, st1) =>
        match cloneKids opts env ts chain st1 rest with
        | .error e => .error e
        | .ok (cs, st2) => .ok (c :: cs, st2)
    else
      cloneKids opts env ts chain (stepFilter opts st k) rest

end

/-- Quote a string for embedding as a markup attribute value. -/
def q (s : String) : String :=
  "\"" ++ s ++ "\""

def styleText (l : List (String × String)) : String :=
  String.intercalate "; " (l.map (fun kv => kv.1 ++ ": " ++ kv.2))

mutual

/-- Modelled from the spec: serialization of one clone into markup text
(spec 4.4), a pure function of the clone tree. -/
def serializeClone (c : Clone) : String :=
  match c with
  | .mk _ tag style src kids =>
    "<" ++ tag ++ " style=" ++ q (styleText style) ++
      (match src with
       | none => ""
       | some d => " src=" ++ q d) ++
      ">" ++ serializeList kids ++ "</" ++ tag ++ ">"

def serializeList (l : List Clone) : String :=
  match l with
  | [] => ""
  | c :: cs => serializeClone c ++ serializeList cs

end

/-- Modelled from the spec: the SVG Serializer (spec 4.4): an SVG root at
the target dimensions, an optional solid backing rectangle for the
background color, and one foreign-content wrapper embedding the clone. -/
def serializeSvg (w h : Nat) (bg : Option String) (inner : String) :
    String :=
  "<svg xmlns=" ++ q "http://www.w3.org/2000/svg" ++
    " width=" ++ q (toString w) ++ " height=" ++ q (toString h) ++ ">" ++
    (match bg with
     | none => ""
     | some c =>
       "<rect width=" ++ q "100%" ++ " height=" ++ q "100%" ++
         " fill=" ++ q c ++ "/>") ++
    "<foreignObject width=" ++ q "100%" ++ " height=" ++ q "100%" ++ ">" ++
    inner ++ "</foreignObject></svg>"

/-- Modelled from the spec: the drawing surface allocated by the
Rasterizer (spec 4.5). -/
structure Surface where
  width : Nat
  height : Nat
  content : String
deriving DecidableEq

/-- Modelled from the spec: the Rasterizer (spec 4.5): allocates a surface
sized width*scale by height*scale and paints the decoded markup once. -/
def rasterize (markup : String) (w h scale : Nat) : Surface :=
  ⟨w * scale, h * scale, markup⟩

/-- Modelled from the spec: the resolved outcome of one conversion:
the finished clone, the serialized SVG markup, the rasterized surface,
and the ghost logs of the operation (its caches are discarded when the
operation completes, spec section 3). -/
structure Rendered where
  clone : Clone
  markup : String
  surface : Surface
  fetchLog : List (Url × Bool)
  rawLog : List Url
  hookLog : List (Nat × Bool)
  filterLog : List Nat

/-- Modelled from the spec: caller width/height overrides and explicit
caller styles are applied to the clone root only, after the recursive walk
completes (spec 4.3). -/
def applyRootStyle (opts : RenderOptions) (c : Clone) : Clone :=
  .mk c.id c.tag (mergeAssoc c.style opts.style) c.src c.children

/-- Modelled from the spec: the `onclone` root hook runs once against the
finished clone root before serialization (spec 4.3). -/
def runOncloneTree (opts : RenderOptions) (c : Clone) : Clone :=
  match opts.onclone with
  | none => c
  | some f => f c

/-- Modelled from the spec: one whole conversion operation (spec section
2 control flow): Clone Builder from a fresh operation state, root
adjustments, the `onclone` hook, SVG serialization at the target
dimensions, then rasterization.  Any unrecoverable failure rejects the
whole operation. -/
def convert (opts : RenderOptions) (env : Env) (ts : String)
    (root : SNode) : Except ConvError Rendered :=
  match cloneNode opts env ts [] initSt root with
  | .error e => .error e
  | .ok (c, st) =>
    let c2 := runOncloneTree opts (applyRootStyle opts c)
    let w := opts.width.getD root.width
    let h := opts.height.getD root.height
    let markup := serializeSvg w h opts.bgcolor (serializeClone c2)
    .ok { clone := c2, markup := markup,
          surface := rasterize markup w h opts.scale,
          fetchLog := st.fetchLog, rawLog := st.rawLog,
          hookLog := st.hookLog, filterLog := st.filterLog }

/-! Source-tree and clone-tree descriptions used to state the verified
properties.  These are direct recursive readings of the source tree (and
of the finished clone), independent of the pipeline's threaded state. -/

mutual

/-- All proper descendants' ids of a source node, in document order. -/
def descIds : SNode → List Nat
  | .mk _ _ _ _ _ _ cs => descIdsL cs

def descIdsL : List SNode → List Nat
  | [] => []
  | k :: rest => k.id :: (descIds k ++ descIdsL rest)

end

/-- All ids of a source tree: the root's and its descendants'. -/
def allIds (n : SNode) : List Nat :=
  n.id :: descIds n

mutual

/-- Ids of the descendants the child walk visits for a filter check: every
child of a surviving node; the subtree below a rejected child is not
visited. -/
def visitedIds (p : SNode → Bool) : SNode → List Nat
  | .mk _ _ _ _ _ _ cs => visitedIdsL p cs

def visitedIdsL (p : SNode → Bool) : List SNode → List Nat
  | [] => []
  | k :: rest =>
    k.id :: ((if p k then visitedIds p k else []) ++ visitedIdsL p rest)

end

mutual

/-- Ids of the nodes surviving the filter: the root and, recursively, the
accepted children of surviving nodes. -/
def prunedIds (p : SNode → Bool) : SNode → List Nat
  | .mk i _ _ _ _ _ cs => i :: prunedIdsL p cs

def prunedIdsL (p : SNode → Bool) : List SNode → List Nat
  | [] => []
  | k :: rest => (if p k then prunedIds p k else []) ++ prunedIdsL p rest

end

mutual

/-- Resource-reference slots of the surviving nodes, in document order. -/
def srcsPruned (p : SNode → Bool) : SNode → List (Option Url)
  | .mk _ _ _ src _ _ cs => src :: srcsPrunedL p cs

def srcsPrunedL (p : SNode → Bool) : List SNode → List (Option Url)
  | [] => []
  | k :: rest => (if p k then srcsPruned p k else []) ++ srcsPrunedL p rest

end

mutual

/-- Ids carried by a clone tree, in document order. -/
def cloneIds : Clone → List Nat
  | .mk i _ _ _ cs => i :: cloneIdsL cs

def cloneIdsL : List Clone → List Nat
  | [] => []
  | c :: rest => cloneIds c ++ cloneIdsL rest

end

mutual

/-- Embedded-data slots carried by a clone tree, in document order. -/
def cloneSrcs : Clone → List (Option Data)
  | .mk _ _ _ src cs => src :: cloneSrcsL cs

def cloneSrcsL : List Clone → List (Option Data)
  | [] => []
  | c :: rest => cloneSrcs c ++ cloneSrcsL rest

end

mutual

/-- Every clone of a clone tree, the root included. -/
def subclones : Clone → List Clone
  | .mk i t s d cs => .mk i t s d cs :: subclonesL cs

def subclonesL : List Clone → List Clone
  | [] => []
  | c :: rest => subclones c ++ subclonesL rest

end

mutual

/-- The `adjustClonedNode` invocation sequence the spec prescribes: for
each surviving node, one phase-false entry, then the entries of its
surviving children, then one phase-true entry. -/
def expHookLog (p : SNode → Bool) : SNode → List (Nat × Bool)
  | .mk i _ _ _ _ _ cs => (i, false) :: (expHookLogL p cs ++ [(i, true)])

def expHookLogL (p : SNode → Bool) : List SNode → List (Nat × Bool)
  | [] => []
  | k :: rest => (if p k then expHookLog p k else []) ++ expHookLogL p rest

end

mutual

/-- All (ancestor-tag chain, own signature) occurrences of a source
tree. -/
def occs (chain : List String) : SNode → List (List String × Sig)
  | .mk _ tag styles src _ _ cs =>
    (chain, ⟨tag, styles, src⟩) :: occsL (chain ++ [tag]) cs

def occsL (chain : List String) : List SNode → List (List String × Sig)
  | [] => []
  | k :: rest => occs chain k ++ occsL chain rest

end

/-! The heap view of the finished clone, used to analyze object identity
around the `onclone` hook: clone nodes are addressed by identity, and an
in-place mutation is a change of the heap that leaves addresses intact. -/

/-- Modelled from the spec: a clone node in the identity-addressed heap
view of the finished clone tree. -/
structure HNode where
  tag : String
  style : List (String × String)
  kids : List Nat
deriving DecidableEq

/-- Modelled from the spec: the finished clone as an identity-addressed
heap. -/
abbrev Heap := List (Nat × HNode)

/-- Modelled from the spec: serialization over the heap view (spec 4.4),
fuelled because an adversarial mutation could create reference cycles. -/
def serializeH : Nat → Heap → Nat → String
  | 0, _, _ => ""
  | fuel + 1, h, r =>
    match lookupA r h with
    | none => ""
    | some nd =>
      "<" ++ nd.tag ++ " style=" ++ q (styleText nd.style) ++ ">" ++
        String.join (nd.kids.map (serializeH fuel h)) ++ "</" ++ nd.tag ++ ">"

/-- Modelled from the spec: the `onclone` stage (spec 4.3) over the heap
view.  The hook receives the finished clone root, may mutate the heap in
place, and returns a value that the pipeline discards — its declared
return type in `src/types/index.d.ts` is void — so serialization always
starts from the original root node. -/
def renderAfterOnclone (hook : Heap → Nat → Heap × Nat) (h : Heap)
    (root : Nat) : String :=
  let m := hook h root
  serializeH (m.1.length + 1) m.1 root

/-- Modelled from the spec: an `adjustClonedNode`-style stage over the heap
view, for contrast: there the hook's returned node is what propagates, so
serialization starts from the returned node. -/
def renderAfterAdjust (hook : Heap → Nat → Heap × Nat) (h : Heap)
    (root : Nat) : String :=
  let m := hook h root
  serializeH (m.1.length + 1) m.1 m.2

/-- A concrete two-node heap used for the contrast part of C10. -/
def exHeap10 : Heap :=
  [(0, ⟨"div", [], [1]⟩), (1, ⟨"span", [], []⟩)]

/-- A hook that mutates nothing but returns a different node (node 1). -/
def exHook10 : Heap → Nat → Heap × Nat :=
  fun h _ => (h, 1)

/-- C10: with an `onclone` hook configured, the hook's return value is
discarded (its declared type is void): the serialized root is the very
node handed to the hook, the rendered output depends only on the in-place
mutation the hook performs, and — unlike `adjustClonedNode`, whose
returned node propagates — `onclone` can never substitute a different
root node. -/
theorem C10_onclone_return_discarded (f g : Heap → Nat → Heap × Nat)
    (h : Heap) (root : Nat) (hfg : (f h root).1 = (g h root).1) :
    renderAfterOnclone f h root = renderAfterOnclone g h root ∧
    renderAfterOnclone f h root
      = serializeH ((f h root).1.length + 1) (f h root).1 root ∧
    renderAfterAdjust exHook10 exHeap10 0 ≠ renderAfterOnclone exHook10 exHeap10 0 := by
  refine ⟨?_, rfl, by decide⟩
  unfold renderAfterOnclone
  show serializeH ((f h root).1.length + 1) (f h root).1 root
      = serializeH ((g h root).1.length + 1) (g h root).1 root
  rw [hfg]

/-- Witness for C10 at a concrete hook pair: a heap-preserving hook that
returns a different node renders the same output as the identity hook. -/
theorem C10_onclone_return_discarded_witness :
    renderAfterOnclone exHook10 exHeap10 0
      = renderAfterOnclone (fun h r => (h, r)) exHeap10 0 := by
  exact (C10_onclone_return_discarded exHook10 (fun h r => (h, r)) exHeap10 0 rfl).1

/-- C7: for every conversion, the Rasterizer allocates a drawing surface of
exactly width*scale by height*scale pixels, where width and height are the
caller overrides when present and the root's measured box otherwise. -/
theorem C7_rasterizer_scaled_surface (opts : RenderOptions) (env : Env)
    (ts : String) (root : SNode) (r : Rendered)
    (h : convert opts env ts root = .ok r) :
    r.surface.width = (opts.width.getD root.width) * opts.scale ∧
    r.surface.height = (opts.height.getD root.height) * opts.scale := by
  unfold convert at h
  split at h
  · exact Except.noConfusion h
  · rw [Except.ok.injEq] at h
    subst h
    exact ⟨rfl, rfl⟩

/-- The options of the spec section 8 scale scenario: scale 2 at 100 by 50
target dimensions. -/
def exOpts7 : RenderOptions :=
  { width := some 100, height := some 50, scale := 2 }

/-- A 30 by 40 measured root overridden by the 100 by 50 target. -/
def exRoot7 : SNode := .mk 0 "div" [] none 30 40 []

/-- An environment with no resources, for scenarios that fetch nothing. -/
def exEnv0 : Env := fun _ => none

/-- Witness for C7: the spec section 8 scenario: scale 2 on a conversion at
100 by 50 yields a 200 by 100 drawing surface. -/
theorem C7_rasterizer_scaled_surface_witness :
    ((convert exOpts7 exEnv0 "0" exRoot7).map
        (fun r => (r.surface.width, r.surface.height))) = .ok (200, 100) := by
  obtain ⟨r, hr⟩ : ∃ r, convert exOpts7 exEnv0 "0" exRoot7 = .ok r := ⟨_, rfl⟩
  have h := C7_rasterizer_scaled_surface exOpts7 exEnv0 "0" exRoot7 r hr
  rw [hr, Except.map, h.1, h.2]
  rfl

/-! Fetch memoization: within one operation, the fetch log never repeats a
(normalized URL, credential mode) key.  The invariant ties the log to the
operation's ResourceRecord cache: a key has been fetched exactly when it is
cached. -/

/-- The memoization invariant of the operation state: the fetch log has no
repeated key, and a key was fetched exactly when the resource cache holds
an entry for it. -/
def fetchInv (st : St) : Prop :=
  st.fetchLog.Nodup ∧ ∀ k, k ∈ st.fetchLog ↔ (lookupA k st.resCache).isSome

theorem lookupA_cons {κ β : Type} [DecidableEq κ] (k k' : κ) (v : β)
    (l : List (κ × β)) :
    lookupA k ((k', v) :: l) = if k' = k then some v else lookupA k l := rfl

theorem fetchInv_inlineResource (opts : RenderOptions) (env : Env)
    (ts : String) (st : St) (u : Url) (h : fetchInv st) :
    fetchInv (inlineResource opts env ts st u).1 := by
  unfold inlineResource
  cases hl : lookupA (u, credFor opts u) st.resCache with
  | some r => simpa using h
  | none =>
    simp only
    constructor
    · have hk : (u, credFor opts u) ∉ st.fetchLog := by
        intro hmem
        have := (h.2 _).mp hmem
        rw [hl] at this
        simp at this
      simp [List.nodup_append, h.1, hk]
    · intro k
      by_cases hek : (u, credFor opts u) = k
      · subst hek
        simp [lookupA_cons]
      · simp only [lookupA_cons, hek, if_false, List.mem_append,
          List.mem_singleton]
        constructor
        · intro hc
          cases hc with
          | inl hc => exact ((h.2 _).mp hc)
          | inr hc => exact absurd hc.symm hek
        · intro hc
          exact Or.inl ((h.2 _).mpr hc)

theorem fetchInv_resolveStyle (opts : RenderOptions) (st : St)
    (chain : List String) (s : Sig) (h : fetchInv st) :
    fetchInv (resolveStyle opts st chain s).1 := by
  unfold resolveStyle
  split <;> simpa [fetchInv] using h

theorem fetchInv_inlineSrc (opts : RenderOptions) (env : Env) (ts : String)
    (st : St) (src : Option Url) (h : fetchInv st) :
    ∀ isrc st2, inlineSrc opts env ts st src = .ok (isrc, st2) →
      fetchInv st2 := by
  intro isrc st2 heq
  unfold inlineSrc at heq
  cases src with
  | none =>
    rw [Except.ok.injEq, Prod.mk.injEq] at heq
    rw [← heq.2]
    exact h
  | some u =>
    simp only at heq
    split at heq
    · exact Except.noConfusion heq
    · rw [Except.ok.injEq, Prod.mk.injEq] at heq
      rw [← heq.2]
      exact fetchInv_inlineResource opts env ts st u h

theorem fetchInv_preHook (opts : RenderOptions) (n : SNode) (c : Clone)
    (st : St) (h : fetchInv st) : fetchInv (preHook opts n c st).2 := by
  unfold preHook
  split <;> simpa [fetchInv] using h

theorem fetchInv_postHook (opts : RenderOptions) (n : SNode) (c : Clone)
    (st : St) (h : fetchInv st) : fetchInv (postHook opts n c st).2 := by
  unfold postHook
  split <;> simpa [fetchInv] using h

theorem fetchInv_stepFilter (opts : RenderOptions) (st : St) (k : SNode)
    (h : fetchInv st) : fetchInv (stepFilter opts st k) := by
  unfold stepFilter
  split <;> simpa [fetchInv] using h

theorem cloneNode_fetchInv (opts : RenderOptions) (env : Env) (ts : String) :
    ∀ (chain : List String) (st : St) (n : SNode), fetchInv st →
      ∀ res, cloneNode opts env ts chain st n = .ok res → fetchInv res.2 := by
  refine cloneNode.induct opts env ts
    (fun chain st n => fetchInv st →
      ∀ res, cloneNode opts env ts chain st n = .ok res → fetchInv res.2)
    (fun chain st l => fetchInv st →
      ∀ res, cloneKids opts env ts chain st l = .ok res → fetchInv res.2)
    ?_ ?_ ?_ ?_ ?_ ?_ ?_ ?_
  · intro chain st i tag styles src w hh children st1 snap hres e hinl hst res heq
    simp only [cloneNode, hres, hinl] at heq
    exact Except.noConfusion heq
  · intro chain st i tag styles src w hh children st1 snap hres isrc st2 hinl
      c1 st3 hpre e hkids ih hst res heq
    simp only [cloneNode, hres, hinl, hpre, hkids] at heq
    exact Except.noConfusion heq
  · intro chain st i tag styles src w hh children st1 snap hres isrc st2 hinl
      c1 st3 hpre kids st4 hkids ih hst res heq
    have h1 : fetchInv st1 := by
      have := fetchInv_resolveStyle opts st chain ⟨tag, styles, src⟩ hst
      rwa [hres] at this
    have h2 : fetchInv st2 :=
      fetchInv_inlineSrc opts env ts st1 src h1 isrc st2 hinl
    have h3 : fetchInv st3 := by
      have := fetchInv_preHook opts (.mk i tag styles src w hh children)
        (.mk i tag snap isrc []) st2 h2
      rwa [hpre] at this
    have h4 : fetchInv st4 := ih h3 (kids, st4) hkids
    simp only [cloneNode, hres, hinl, hpre, hkids, Except.ok.injEq] at heq
    rw [← heq]
    exact fetchInv_postHook opts (.mk i tag styles src w hh children)
      (c1.attach kids) st4 h4
  · intro chain st hst res heq
    simp only [cloneKids, Except.ok.injEq] at heq
    rw [← heq]
    exact hst
  · intro chain st k rest hf e hcn ih hst res heq
    simp only [cloneKids, hf, if_true, hcn] at heq
    exact Except.noConfusion heq
  · intro chain st k rest hf c st1 hcn e hck ih1 ih2 hst res heq
    simp only [cloneKids, hf, if_true, hcn, hck] at heq
    exact Except.noConfusion heq
  · intro chain st k rest hf c st1 hcn kids st4 hck ih1 ih2 hst res heq
    have h0 : fetchInv (stepFilter opts st k) := fetchInv_stepFilter opts st k hst
    have h1 : fetchInv st1 := ih1 h0 (c, st1) hcn
    have h2 : fetchInv st4 := ih2 h1 (kids, st4) hck
    simp only [cloneKids, hf, if_true, hcn, hck, Except.ok.injEq] at heq
    rw [← heq]
    exact h2
  · intro chain st k rest hf ih hst res heq
    have h0 : fetchInv (stepFilter opts st k) := fetchInv_stepFilter opts st k hst
    simp only [cloneKids, hf, if_false] at heq
    exact ih h0 res heq

theorem count_le_one_of_nodup {α : Type} [BEq α] [LawfulBEq α] {l : List α}
    (h : l.Nodup) (a : α) : l.count a ≤ 1 := by
  induction l with
  | nil => simp
  | cons x xs ih =>
    rcases List.nodup_cons.mp h with ⟨hx, hxs⟩
    rw [List.count_cons]
    by_cases hxa : a = x
    · subst hxa
      have : xs.count a = 0 := List.count_eq_zero.mpr hx
      simp [this]
    · have hbeq : (x == a) = false :=
        beq_eq_false_iff_ne.mpr (fun hxe => hxa hxe.symm)
      simp only [hbeq, if_false]
      simpa using ih hxs

theorem fetchInv_initSt : fetchInv initSt := by
  constructor
  · simp [initSt]
  · intro k
    simp [initSt, lookupA]

/-- The fetch log of a conversion outcome (empty on rejection). -/
def fetchLogOf : Except ConvError Rendered → List (Url × Bool)
  | .ok r => r.fetchLog
  | .error _ => []

/-- C9: within a single conversion operation, for every key (normalized
URL, credential mode), at most one fetch is ever issued regardless of how
many times a resource with that key is referenced: the operation's fetch
log never repeats a key.  The per-operation caches live only in the
threaded operation state: the resolved `Rendered` outcome carries no cache,
so nothing is retained across calls. -/
theorem C9_fetch_at_most_once_per_key (opts : RenderOptions) (env : Env)
    (ts : String) (root : SNode) (r : Rendered)
    (h : convert opts env ts root = .ok r) :
    r.fetchLog.Nodup ∧ ∀ k, r.fetchLog.count k ≤ 1 := by
  unfold convert at h
  cases hc : cloneNode opts env ts [] initSt root with
  | error e =>
    rw [hc] at h
    exact Except.noConfusion h
  | ok p =>
    obtain ⟨c, st⟩ := p
    rw [hc] at h
    simp only [Except.ok.injEq] at h
    have hinv : fetchInv st :=
      cloneNode_fetchInv opts env ts [] initSt root fetchInv_initSt (c, st) hc
    have hlog : r.fetchLog = st.fetchLog := by rw [← h]
    rw [hlog]
    exact ⟨hinv.1, count_le_one_of_nodup hinv.1⟩

/-- A tree referencing the same resource twice, for the C9 witness. -/
def exTree9 : SNode :=
  .mk 0 "div" [] none 10 10
    [.mk 1 "img" [] (some "a.png") 1 1 [],
     .mk 2 "img" [] (some "a.png") 1 1 []]

/-- An environment serving the one resource of the C9 witness tree. -/
def exEnv9 : Env := fun u => if u = "a.png" then some "DATA-A" else none

/-- Witness for C9: a tree referencing `a.png` twice issues at most one
fetch for its key. -/
theorem C9_fetch_at_most_once_per_key_witness :
    (fetchLogOf (convert {} exEnv9 "0" exTree9)).count ("a.png", false) ≤ 1 := by
  obtain ⟨r, hr⟩ : ∃ r, convert {} exEnv9 "0" exTree9 = .ok r := ⟨_, rfl⟩
  have h := C9_fetch_at_most_once_per_key {} exEnv9 "0" exTree9 r hr
  rw [hr]
  simp only [fetchLogOf]
  exact h.2 ("a.png", false)

/-! Failure semantics: characterization of the resolved and rejected
outcomes of a conversion in terms of the reachable resource references. -/

/-- Coherence of the operation's resource cache with the environment:
every cached record holds exactly what the environment serves for its
URL. -/
def resCacheInv (env : Env) (st : St) : Prop :=
  ∀ k v, lookupA k st.resCache = some v → v = env k.1

/-- The data a resource reference resolves to under the inliner's failure
policy: the fetched content, or the configured placeholder. -/
def policyData (opts : RenderOptions) (env : Env) (u : Url) : Data :=
  match env u with
  | some d => d
  | none => opts.imagePlaceholder.getD ""

/-- The embedded-data slot a source reference slot resolves to. -/
def inlineSpec (opts : RenderOptions) (env : Env) : Option Url → Option Data :=
  Option.map (policyData opts env)

theorem inlineResource_spec (opts : RenderOptions) (env : Env) (ts : String)
    (st : St) (u : Url) (h : resCacheInv env st) :
    (inlineResource opts env ts st u).2 = env u ∧
    resCacheInv env (inlineResource opts env ts st u).1 := by
  unfold inlineResource
  cases hl : lookupA (u, credFor opts u) st.resCache with
  | some r => exact ⟨h _ _ hl, by simpa using h⟩
  | none =>
    refine ⟨rfl, ?_⟩
    intro k v hkv
    rw [lookupA_cons] at hkv
    split at hkv
    · rename_i hk
      rw [← hk]
      exact ((Option.some.injEq _ _).mp hkv).symm
    · exact h _ _ hkv

theorem resCacheInv_resolveStyle (opts : RenderOptions) (env : Env) (st : St)
    (chain : List String) (s : Sig) (h : resCacheInv env st) :
    resCacheInv env (resolveStyle opts st chain s).1 := by
  unfold resolveStyle
  split <;> simpa [resCacheInv] using h

theorem resCacheInv_preHook (opts : RenderOptions) (env : Env) (n : SNode)
    (c : Clone) (st : St) (h : resCacheInv env st) :
    resCacheInv env (preHook opts n c st).2 := by
  unfold preHook
  split <;> simpa [resCacheInv] using h

theorem resCacheInv_postHook (opts : RenderOptions) (env : Env) (n : SNode)
    (c : Clone) (st : St) (h : resCacheInv env st) :
    resCacheInv env (postHook opts n c st).2 := by
  unfold postHook
  split <;> simpa [resCacheInv] using h

theorem resCacheInv_stepFilter (opts : RenderOptions) (env : Env) (st : St)
    (k : SNode) (h : resCacheInv env st) :
    resCacheInv env (stepFilter opts st k) := by
  unfold stepFilter
  split <;> simpa [resCacheInv] using h

theorem inlineSrc_spec_ok (opts : RenderOptions) (env : Env) (ts : String)
    (st : St) (src : Option Url) (h : resCacheInv env st) :
    ∀ isrc st2, inlineSrc opts env ts st src = .ok (isrc, st2) →
      resCacheInv env st2 ∧ isrc = inlineSpec opts env src ∧
      (opts.imagePlaceholder = none →
        ∀ u, src = some u → (env u).isSome) := by
  intro isrc st2 heq
  unfold inlineSrc at heq
  cases src with
  | none =>
    rw [Except.ok.injEq, Prod.mk.injEq] at heq
    refine ⟨heq.2 ▸ h, ?_, ?_⟩
    · rw [← heq.1]
      rfl
    · intro _ u hu
      exact Option.noConfusion hu
  | some u =>
    obtain ⟨hv, hc⟩ := inlineResource_spec opts env ts st u h
    simp only at heq
    cases hr : resourcePolicy opts u (inlineResource opts env ts st u).2 with
    | error e =>
      rw [hr] at heq
      exact Except.noConfusion heq
    | ok d =>
      rw [hr] at heq
      rw [Except.ok.injEq, Prod.mk.injEq] at heq
      refine ⟨heq.2 ▸ hc, ?_, ?_⟩
      · rw [← heq.1]
        unfold resourcePolicy at hr
        rw [hv] at hr
        cases he : env u with
        | some d0 =>
          rw [he] at hr
          rw [Except.ok.injEq] at hr
          simp [inlineSpec, policyData, he, hr]
        | none =>
          rw [he] at hr
          cases hp : opts.imagePlaceholder with
          | some ph =>
            rw [hp] at hr
            rw [Except.ok.injEq] at hr
            simp [inlineSpec, policyData, he, hp, hr]
          | none =>
            rw [hp] at hr
            exact Except.noConfusion hr
      · intro hp u0 hu0
        rw [Option.some.injEq] at hu0
        subst hu0
        unfold resourcePolicy at hr
        rw [hv] at hr
        cases he : env u with
        | some d0 => simp
        | none =>
          rw [he, hp] at hr
          exact Except.noConfusion hr

theorem inlineSrc_spec_error (opts : RenderOptions) (env : Env) (ts : String)
    (st : St) (src : Option Url) (h : resCacheInv env st) :
    ∀ e, inlineSrc opts env ts st src = .error e →
      ∃ u, src = some u ∧ e = .resourceFetchFailure u ∧ env u = none ∧
        opts.imagePlaceholder = none := by
  intro e heq
  unfold inlineSrc at heq
  cases src with
  | none => exact Except.noConfusion heq
  | some u =>
    obtain ⟨hv, _⟩ := inlineResource_spec opts env ts st u h
    simp only at heq
    cases hr : resourcePolicy opts u (inlineResource opts env ts st u).2 with
    | ok d =>
      rw [hr] at heq
      exact Except.noConfusion heq
    | error e0 =>
      rw [hr] at heq
      rw [Except.error.injEq] at heq
      subst heq
      unfold resourcePolicy at hr
      rw [hv] at hr
      cases he : env u with
      | some d0 =>
        rw [he] at hr
        exact Except.noConfusion hr
      | none =>
        rw [he] at hr
        cases hp : opts.imagePlaceholder with
        | some ph =>
          rw [hp] at hr
          exact Except.noConfusion hr
        | none =>
          rw [hp] at hr
          rw [Except.error.injEq] at hr
          exact ⟨u, rfl, hr.symm, he, rfl⟩

/-- The outcome characterization carried through the clone walk: on a
resolved outcome the cache stays coherent and (with no placeholder) every
surviving resource reference fetched successfully; a rejected outcome names
a surviving reference that failed with no placeholder configured. -/
def nodeOutcome (opts : RenderOptions) (env : Env) (ts : String)
    (chain : List String) (st : St) (n : SNode) : Prop :=
  (∀ res, cloneNode opts env ts chain st n = .ok res →
    resCacheInv env res.2 ∧
    (opts.imagePlaceholder = none →
      ∀ u, some u ∈ srcsPruned (effFilter opts) n → (env u).isSome)) ∧
  (∀ e, cloneNode opts env ts chain st n = .error e →
    ∃ u, e = .resourceFetchFailure u ∧ env u = none ∧
      opts.imagePlaceholder = none ∧ some u ∈ srcsPruned (effFilter opts) n)

/-- The same characterization for a child list. -/
def kidsOutcome (opts : RenderOptions) (env : Env) (ts : String)
    (chain : List String) (st : St) (l : List SNode) : Prop :=
  (∀ res, cloneKids opts env ts chain st l = .ok res →
    resCacheInv env res.2 ∧
    (opts.imagePlaceholder = none →
      ∀ u, some u ∈ srcsPrunedL (effFilter opts) l → (env u).isSome)) ∧
  (∀ e, cloneKids opts env ts chain st l = .error e →
    ∃ u, e = .resourceFetchFailure u ∧ env u = none ∧
      opts.imagePlaceholder = none ∧ some u ∈ srcsPrunedL (effFilter opts) l)

theorem cloneNode_outcome (opts : RenderOptions) (env : Env) (ts : String) :
    ∀ (chain : List String) (st : St) (n : SNode), resCacheInv env st →
      nodeOutcome opts env ts chain st n := by
  refine cloneNode.induct opts env ts
    (fun chain st n => resCacheInv env st → nodeOutcome opts env ts chain st n)
    (fun chain st l => resCacheInv env st → kidsOutcome opts env ts chain st l)
    ?_ ?_ ?_ ?_ ?_ ?_ ?_ ?_
  · -- resource-inline failure at the node itself
    intro chain st i tag styles src w hh children st1 snap hres e0 hinl hcache
    have hc1 : resCacheInv env st1 := by
      have := resCacheInv_resolveStyle opts env st chain ⟨tag, styles, src⟩ hcache
      rwa [hres] at this
    constructor
    · intro res heq
      simp only [cloneNode, hres, hinl] at heq
      exact Except.noConfusion heq
    · intro e heq
      simp only [cloneNode, hres, hinl, Except.error.injEq] at heq
      subst heq
      obtain ⟨u, hsrc, he, henv, hp⟩ :=
        inlineSrc_spec_error opts env ts st1 src hc1 e0 hinl
      refine ⟨u, he, henv, hp, ?_⟩
      simp [srcsPruned, hsrc]
  · -- failure inside the child walk
    intro chain st i tag styles src w hh children st1 snap hres isrc st2 hinl
      c1 st3 hpre e0 hkids ih hcache
    have hc1 : resCacheInv env st1 := by
      have := resCacheInv_resolveStyle opts env st chain ⟨tag, styles, src⟩ hcache
      rwa [hres] at this
    obtain ⟨hc2, hisrc, hsucc⟩ :=
      inlineSrc_spec_ok opts env ts st1 src hc1 isrc st2 hinl
    have hc3 : resCacheInv env st3 := by
      have := resCacheInv_preHook opts env (.mk i tag styles src w hh children)
        (.mk i tag snap isrc []) st2 hc2
      rwa [hpre] at this
    have ihm := ih hc3
    constructor
    · intro res heq
      simp only [cloneNode, hres, hinl, hpre, hkids] at heq
      exact Except.noConfusion heq
    · intro e heq
      simp only [cloneNode, hres, hinl, hpre, hkids, Except.error.injEq] at heq
      subst heq
      obtain ⟨u, he, henv, hp, hmem⟩ := ihm.2 e0 hkids
      refine ⟨u, he, henv, hp, ?_⟩
      simp [srcsPruned]
      exact Or.inr hmem
  · -- resolved node
    intro chain st i tag styles src w hh children st1 snap hres isrc st2 hinl
      c1 st3 hpre kids st4 hkids ih hcache
    have hc1 : resCacheInv env st1 := by
      have := resCacheInv_resolveStyle opts env st chain ⟨tag, styles, src⟩ hcache
      rwa [hres] at this
    obtain ⟨hc2, hisrc, hsucc⟩ :=
      inlineSrc_spec_ok opts env ts st1 src hc1 isrc st2 hinl
    have hc3 : resCacheInv env st3 := by
      have := resCacheInv_preHook opts env (.mk i tag styles src w hh children)
        (.mk i tag snap isrc []) st2 hc2
      rwa [hpre] at this
    have ihm := ih hc3
    constructor
    · intro res heq
      simp only [cloneNode, hres, hinl, hpre, hkids, Except.ok.injEq] at heq
      obtain ⟨hc4, hall⟩ := ihm.1 (kids, st4) hkids
      constructor
      · rw [← heq]
        exact resCacheInv_postHook opts env (.mk i tag styles src w hh children)
          (c1.attach kids) st4 hc4
      · intro hp u hu
        simp only [srcsPruned, List.mem_cons] at hu
        cases hu with
        | inl hu => exact hsucc hp u hu.symm
        | inr hu => exact hall hp u hu
    · intro e heq
      simp only [cloneNode, hres, hinl, hpre, hkids] at heq
      exact Except.noConfusion heq
  · -- empty child list
    intro chain st hcache
    constructor
    · intro res heq
      simp only [cloneKids, Except.ok.injEq] at heq
      rw [← heq]
      exact ⟨hcache, fun _ u hu => by simp [srcsPrunedL] at hu⟩
    · intro e heq
      simp only [cloneKids] at heq
      exact Except.noConfusion heq
  · -- surviving child whose own clone fails
    intro chain st k rest hf e0 hcn ih hcache
    have h0 : resCacheInv env (stepFilter opts st k) :=
      resCacheInv_stepFilter opts env st k hcache
    have ihm := ih h0
    constructor
    · intro res heq
      simp only [cloneKids, hf, if_true, hcn] at heq
      exact Except.noConfusion heq
    · intro e heq
      simp only [cloneKids, hf, if_true, hcn, Except.error.injEq] at heq
      subst heq
      obtain ⟨u, he, henv, hp, hmem⟩ := ihm.2 e0 hcn
      refine ⟨u, he, henv, hp, ?_⟩
      simp [srcsPrunedL, hf, List.mem_append]
      exact Or.inl hmem
  · -- surviving child resolved, but the rest of the walk fails
    intro chain st k rest hf c st1 hcn e0 hck ih1 ih2 hcache
    have h0 : resCacheInv env (stepFilter opts st k) :=
      resCacheInv_stepFilter opts env st k hcache
    have ihm1 := ih1 h0
    have hc1 : resCacheInv env st1 := (ihm1.1 (c, st1) hcn).1
    have ihm2 := ih2 hc1
    constructor
    · intro res heq
      simp only [cloneKids, hf, if_true, hcn, hck] at heq
      exact Except.noConfusion heq
    · intro e heq
      simp only [cloneKids, hf, if_true, hcn, hck, Except.error.injEq] at heq
      subst heq
      obtain ⟨u, he, henv, hp, hmem⟩ := ihm2.2 e0 hck
      refine ⟨u, he, henv, hp, ?_⟩
      simp [srcsPrunedL, hf, List.mem_append]
      exact Or.inr hmem
  · -- surviving child and rest both resolved
    intro chain st k rest hf c st1 hcn kids st4 hck ih1 ih2 hcache
    have h0 : resCacheInv env (stepFilter opts st k) :=
      resCacheInv_stepFilter opts env st k hcache
    have ihm1 := ih1 h0
    have hc1 : resCacheInv env st1 := (ihm1.1 (c, st1) hcn).1
    have ihm2 := ih2 hc1
    constructor
    · intro res heq
      simp only [cloneKids, hf, if_true, hcn, hck, Except.ok.injEq] at heq
      obtain ⟨hc4, hall⟩ := ihm2.1 (kids, st4) hck
      constructor
      · rw [← heq]
        exact hc4
      · intro hp u hu
        simp only [srcsPrunedL, hf, if_true, List.mem_append] at hu
        cases hu with
        | inl hu => exact (ihm1.1 (c, st1) hcn).2 hp u hu
        | inr hu => exact hall hp u hu
    · intro e heq
      simp only [cloneKids, hf, if_true, hcn, hck] at heq
      exact Except.noConfusion heq
  · -- rejected child: the whole subtree is skipped
    intro chain st k rest hf ih hcache
    have h0 : resCacheInv env (stepFilter opts st k) :=
      resCacheInv_stepFilter opts env st k hcache
    have ihm := ih h0
    constructor
    · intro res heq
      simp only [cloneKids, hf, if_false] at heq
      have := ihm.1 res heq
      refine ⟨this.1, ?_⟩
      intro hp u hu
      simp only [srcsPrunedL, hf, if_false, List.nil_append] at hu
      exact this.2 hp u hu
    · intro e heq
      simp only [cloneKids, hf, if_false] at heq
      obtain ⟨u, he, henv, hp, hmem⟩ := ihm.2 e heq
      refine ⟨u, he, henv, hp, ?_⟩
      simpa [srcsPrunedL, hf] using hmem

theorem resCacheInv_initSt (env : Env) : resCacheInv env initSt := by
  intro k v hkv
  simp [initSt, lookupA] at hkv

/-- C4: every conversion call is all-or-nothing: its outcome is one
`Except` value, never a partial result.  A resolved outcome implies no
unrecoverable resource failure occurred (with no placeholder configured,
every surviving resource reference fetched successfully), and a rejected
outcome carries the originating cause: the failing reference, which failed
with no placeholder configured. -/
theorem C4_all_or_nothing (opts : RenderOptions) (env : Env) (ts : String)
    (root : SNode) :
    (∀ r, convert opts env ts root = .ok r → opts.imagePlaceholder = none →
      ∀ u, some u ∈ srcsPruned (effFilter opts) root → (env u).isSome) ∧
    (∀ e, convert opts env ts root = .error e →
      ∃ u, e = .resourceFetchFailure u ∧ env u = none ∧
        opts.imagePlaceholder = none ∧
        some u ∈ srcsPruned (effFilter opts) root) := by
  have hout := cloneNode_outcome opts env ts [] initSt root (resCacheInv_initSt env)
  constructor
  · intro r hr hp u hu
    unfold convert at hr
    cases hc : cloneNode opts env ts [] initSt root with
    | error e =>
      rw [hc] at hr
      exact Except.noConfusion hr
    | ok p => exact (hout.1 p hc).2 hp u hu
  · intro e he
    unfold convert at he
    cases hc : cloneNode opts env ts [] initSt root with
    | error e0 =>
      rw [hc] at he
      rw [Except.error.injEq] at he
      subst he
      exact hout.2 e0 hc
    | ok p =>
      obtain ⟨c, st⟩ := p
      rw [hc] at he
      exact Except.noConfusion he

/-- Witness for C4 at a concrete conversion: the resolved outcome on the
two-image tree with no placeholder entails that its resource fetch
succeeded. -/
theorem C4_all_or_nothing_witness :
    (exEnv9 "a.png").isSome = true := by
  obtain ⟨r, hr⟩ : ∃ r, convert {} exEnv9 "0" exTree9 = .ok r := ⟨_, rfl⟩
  refine (C4_all_or_nothing {} exEnv9 "0" exTree9).1 r hr rfl "a.png" ?_
  decide

theorem preHook_none (opts : RenderOptions) (n : SNode) (c : Clone) (st : St)
    (hadj : opts.adjustClonedNode = none) : preHook opts n c st = (c, st) := by
  unfold preHook
  rw [hadj]

theorem postHook_none (opts : RenderOptions) (n : SNode) (c : Clone) (st : St)
    (hadj : opts.adjustClonedNode = none) : postHook opts n c st = (c, st) := by
  unfold postHook
  rw [hadj]

theorem cloneNode_srcs (opts : RenderOptions) (env : Env) (ts : String)
    (hadj : opts.adjustClonedNode = none) :
    ∀ (chain : List String) (st : St) (n : SNode), resCacheInv env st →
      ∀ c st2, cloneNode opts env ts chain st n = .ok (c, st2) →
        cloneSrcs c = (srcsPruned (effFilter opts) n).map (inlineSpec opts env) ∧
        resCacheInv env st2 := by
  refine cloneNode.induct opts env ts
    (fun chain st n => resCacheInv env st →
      ∀ c st2, cloneNode opts env ts chain st n = .ok (c, st2) →
        cloneSrcs c = (srcsPruned (effFilter opts) n).map (inlineSpec opts env) ∧
        resCacheInv env st2)
    (fun chain st l => resCacheInv env st →
      ∀ cs st2, cloneKids opts env ts chain st l = .ok (cs, st2) →
        cloneSrcsL cs = (srcsPrunedL (effFilter opts) l).map (inlineSpec opts env) ∧
        resCacheInv env st2)
    ?_ ?_ ?_ ?_ ?_ ?_ ?_ ?_
  · intro chain st i tag styles src w hh children st1 snap hres e0 hinl
      hcache c st2 heq
    simp only [cloneNode, hres, hinl] at heq
    exact Except.noConfusion heq
  · intro chain st i tag styles src w hh children st1 snap hres isrc st2 hinl
      c1 st3 hpre e0 hkids ih hcache c st4 heq
    simp only [cloneNode, hres, hinl, hpre, hkids] at heq
    exact Except.noConfusion heq
  · intro chain st i tag styles src w hh children st1 snap hres isrc st2 hinl
      c1 st3 hpre kids st4 hkids ih hcache c st5 heq
    have hc1 : resCacheInv env st1 := by
      have := resCacheInv_resolveStyle opts env st chain ⟨tag, styles, src⟩ hcache
      rwa [hres] at this
    obtain ⟨hc2, hisrc, _⟩ :=
      inlineSrc_spec_ok opts env ts st1 src hc1 isrc st2 hinl
    have hpost : ∀ (n0 : SNode) (c0 : Clone) (st0 : St),
        postHook opts n0 c0 st0 = (c0, st0) :=
      fun n0 c0 st0 => postHook_none opts n0 c0 st0 hadj
    have hpre' := hpre
    rw [preHook_none opts _ _ _ hadj, Prod.mk.injEq] at hpre'
    have hc3 : resCacheInv env st3 := hpre'.2 ▸ hc2
    obtain ⟨hkidsSrcs, hc4⟩ := ih hc3 kids st4 hkids
    simp only [cloneNode, hres, hinl, hpre, hkids, hpost, Except.ok.injEq,
      Prod.mk.injEq] at heq
    rw [← heq.1, ← heq.2]
    refine ⟨?_, hc4⟩
    rw [← hpre'.1]
    simp only [Clone.attach, Clone.id, Clone.tag, Clone.style, Clone.src,
      Clone.children, List.nil_append, cloneSrcs, srcsPruned, List.map_cons]
    rw [hkidsSrcs, hisrc]
  · intro chain st hcache cs st2 heq
    simp only [cloneKids, Except.ok.injEq, Prod.mk.injEq] at heq
    rw [← heq.1, ← heq.2]
    exact ⟨rfl, hcache⟩
  · intro chain st k rest hf e0 hcn ih hcache cs st2 heq
    simp only [cloneKids, hf, if_true, hcn] at heq
    exact Except.noConfusion heq
  · intro chain st k rest hf c st1 hcn e0 hck ih1 ih2 hcache cs st2 heq
    simp only [cloneKids, hf, if_true, hcn, hck] at heq
    exact Except.noConfusion heq
  · intro chain st k rest hf c st1 hcn kids st4 hck ih1 ih2 hcache cs st5 heq
    have h0 : resCacheInv env (stepFilter opts st k) :=
      resCacheInv_stepFilter opts env st k hcache
    obtain ⟨hcs, hc1⟩ := ih1 h0 c st1 hcn
    obtain ⟨hrest, hc2⟩ := ih2 hc1 kids st4 hck
    simp only [cloneKids, hf, if_true, hcn, hck, Except.ok.injEq,
      Prod.mk.injEq] at heq
    rw [← heq.1, ← heq.2]
    refine ⟨?_, hc2⟩
    simp only [cloneSrcsL, srcsPrunedL, hf, if_true, List.map_append]
    rw [hcs, hrest]
  · intro chain st k rest hf ih hcache cs st2 heq
    have h0 : resCacheInv env (stepFilter opts st k) :=
      resCacheInv_stepFilter opts env st k hcache
    simp only [cloneKids, hf, if_false] at heq
    obtain ⟨hrest, hc⟩ := ih h0 cs st2 heq
    refine ⟨?_, hc⟩
    simp only [srcsPrunedL, hf, if_false, List.nil_append]
    exact hrest

theorem cloneSrcs_applyRootStyle (opts : RenderOptions) (c : Clone) :
    cloneSrcs (applyRootStyle opts c) = cloneSrcs c := by
  cases c
  rfl

/-- C3: for every resource reference whose fetch fails during a
conversion: with `imagePlaceholder` configured, the conversion resolves
successfully and the output embeds, slot for slot, the inlined data of
each surviving reference — the placeholder's data in place of every
failing reference; with no placeholder configured, the conversion's
outcome is a rejection identifying a failing reference.  Stated for
conversions without clone-adjustment hooks, which could otherwise rewrite
the embedded slots arbitrarily. -/
theorem C3_placeholder_or_reject (opts : RenderOptions) (env : Env)
    (ts : String) (root : SNode) (hadj : opts.adjustClonedNode = none)
    (honc : opts.onclone = none) :
    (∀ ph, opts.imagePlaceholder = some ph →
      ∃ r, convert opts env ts root = .ok r ∧
        cloneSrcs r.clone
          = (srcsPruned (effFilter opts) root).map (inlineSpec opts env) ∧
        ∀ u, some u ∈ srcsPruned (effFilter opts) root → env u = none →
          some ph ∈ cloneSrcs r.clone) ∧
    (opts.imagePlaceholder = none →
      ∀ u0, some u0 ∈ srcsPruned (effFilter opts) root → env u0 = none →
        ∃ u, convert opts env ts root = .error (.resourceFetchFailure u) ∧
          env u = none ∧ some u ∈ srcsPruned (effFilter opts) root) := by
  constructor
  · intro ph hp
    cases hc : cloneNode opts env ts [] initSt root with
    | error e =>
      obtain ⟨u, _, _, hpn, _⟩ :=
        (cloneNode_outcome opts env ts [] initSt root
          (resCacheInv_initSt env)).2 e hc
      rw [hp] at hpn
      exact Option.noConfusion hpn
    | ok p =>
      obtain ⟨c, st⟩ := p
      obtain ⟨hsrcs, _⟩ :=
        cloneNode_srcs opts env ts hadj [] initSt root
          (resCacheInv_initSt env) c st hc
      obtain ⟨r, hr, hrc⟩ : ∃ r, convert opts env ts root = .ok r ∧
          r.clone = runOncloneTree opts (applyRootStyle opts c) := by
        unfold convert
        rw [hc]
        exact ⟨_, rfl, rfl⟩
      have hrs : cloneSrcs r.clone
          = (srcsPruned (effFilter opts) root).map (inlineSpec opts env) := by
        rw [hrc]
        simp only [runOncloneTree, honc]
        rw [cloneSrcs_applyRootStyle]
        exact hsrcs
      refine ⟨r, hr, hrs, ?_⟩
      intro u hu henv
      rw [hrs]
      have : inlineSpec opts env (some u) = some ph := by
        simp [inlineSpec, policyData, henv, hp]
      rw [← this]
      exact List.mem_map_of_mem _ hu
  · intro hp u0 hu0 henv0
    cases hc : cloneNode opts env ts [] initSt root with
    | ok p =>
      obtain ⟨c, st⟩ := p
      have hsucc :=
        ((cloneNode_outcome opts env ts [] initSt root
          (resCacheInv_initSt env)).1 (c, st) hc).2 hp u0 hu0
      rw [henv0] at hsucc
      exact Bool.noConfusion hsucc
    | error e =>
      obtain ⟨u, he, henv, _, hmem⟩ :=
        (cloneNode_outcome opts env ts [] initSt root
          (resCacheInv_initSt env)).2 e hc
      refine ⟨u, ?_, henv, hmem⟩
      unfold convert
      rw [hc, he]

/-- The placeholder options of the C3 witness. -/
def exOpts3 : RenderOptions := { imagePlaceholder := some "PH" }

/-- A tree with one image whose resource is unavailable. -/
def exTree3 : SNode :=
  .mk 0 "div" [] none 10 10 [.mk 1 "img" [] (some "missing.png") 1 1 []]

/-- The embedded-data slots of a conversion outcome (empty on
rejection). -/
def cloneSrcsOf : Except ConvError Rendered → List (Option Data)
  | .ok r => cloneSrcs r.clone
  | .error _ => []

/-- Witness for C3: with placeholder PH configured and every fetch
failing, the conversion resolves and the image slot embeds PH. -/
theorem C3_placeholder_or_reject_witness :
    cloneSrcsOf (convert exOpts3 exEnv0 "0" exTree3) = [none, some "PH"] := by
  obtain ⟨r, hr, hsrcs, _⟩ :=
    (C3_placeholder_or_reject exOpts3 exEnv0 "0" exTree3 rfl rfl).1 "PH" rfl
  rw [hr]
  simp only [cloneSrcsOf]
  rw [hsrcs]
  rfl

/-! Field-preservation lemmas for the per-node steps, used to trace the
ghost logs through the walk. -/

theorem resolveStyle_fields (opts : RenderOptions) (st : St)
    (chain : List String) (s : Sig) :
    (resolveStyle opts st chain s).1.resCache = st.resCache ∧
    (resolveStyle opts st chain s).1.fetchLog = st.fetchLog ∧
    (resolveStyle opts st chain s).1.rawLog = st.rawLog ∧
    (resolveStyle opts st chain s).1.hookLog = st.hookLog ∧
    (resolveStyle opts st chain s).1.filterLog = st.filterLog := by
  unfold resolveStyle
  split <;> simp

theorem inlineResource_fields (opts : RenderOptions) (env : Env)
    (ts : String) (st : St) (u : Url) :
    (inlineResource opts env ts st u).1.styleCache = st.styleCache ∧
    (inlineResource opts env ts st u).1.hookLog = st.hookLog ∧
    (inlineResource opts env ts st u).1.filterLog = st.filterLog ∧
    ((inlineResource opts env ts st u).1.fetchLog = st.fetchLog ∨
     (inlineResource opts env ts st u).1.fetchLog
       = st.fetchLog ++ [(u, credFor opts u)]) := by
  unfold inlineResource
  split
  · simp
  · simp

theorem inlineSrc_fields (opts : RenderOptions) (env : Env) (ts : String)
    (st : St) (src : Option Url) :
    ∀ isrc st2, inlineSrc opts env ts st src = .ok (isrc, st2) →
      st2.styleCache = st.styleCache ∧
      st2.hookLog = st.hookLog ∧
      st2.filterLog = st.filterLog ∧
      (st2.fetchLog = st.fetchLog ∨
       ∃ u, src = some u ∧ st2.fetchLog = st.fetchLog ++ [(u, credFor opts u)]) := by
  intro isrc st2 heq
  unfold inlineSrc at heq
  cases src with
  | none =>
    rw [Except.ok.injEq, Prod.mk.injEq] at heq
    rw [← heq.2]
    exact ⟨rfl, rfl, rfl, Or.inl rfl⟩
  | some u =>
    simp only at heq
    split at heq
    · exact Except.noConfusion heq
    · rw [Except.ok.injEq, Prod.mk.injEq] at heq
      rw [← heq.2]
      obtain ⟨h1, h2, h3, h4⟩ := inlineResource_fields opts env ts st u
      refine ⟨h1, h2, h3, ?_⟩
      cases h4 with
      | inl h4 => exact Or.inl h4
      | inr h4 => exact Or.inr ⟨u, rfl, h4⟩

theorem preHook_fields (opts : RenderOptions) (n : SNode) (c : Clone)
    (st : St) :
    (preHook opts n c st).2.resCache = st.resCache ∧
    (preHook opts n c st).2.styleCache = st.styleCache ∧
    (preHook opts n c st).2.fetchLog = st.fetchLog ∧
    (preHook opts n c st).2.rawLog = st.rawLog ∧
    (preHook opts n c st).2.filterLog = st.filterLog := by
  unfold preHook
  split <;> simp

theorem postHook_fields (opts : RenderOptions) (n : SNode) (c : Clone)
    (st : St) :
    (postHook opts n c st).2.resCache = st.resCache ∧
    (postHook opts n c st).2.styleCache = st.styleCache ∧
    (postHook opts n c st).2.fetchLog = st.fetchLog ∧
    (postHook opts n c st).2.rawLog = st.rawLog ∧
    (postHook opts n c st).2.filterLog = st.filterLog := by
  unfold postHook
  split <;> simp

theorem stepFilter_fields (opts : RenderOptions) (st : St) (k : SNode) :
    (stepFilter opts st k).resCache = st.resCache ∧
    (stepFilter opts st k).styleCache = st.styleCache ∧
    (stepFilter opts st k).fetchLog = st.fetchLog ∧
    (stepFilter opts st k).rawLog = st.rawLog ∧
    (stepFilter opts st k).hookLog = st.hookLog := by
  unfold stepFilter
  split <;> simp

theorem stepFilter_filterLog_some (opts : RenderOptions) (p : SNode → Bool)
    (hfil : opts.filter = some p) (st : St) (k : SNode) :
    (stepFilter opts st k).filterLog = st.filterLog ++ [k.id] := by
  unfold stepFilter
  rw [hfil]

theorem effFilter_some (opts : RenderOptions) (p : SNode → Bool)
    (hfil : opts.filter = some p) (k : SNode) : effFilter opts k = p k := by
  unfold effFilter
  rw [hfil]

theorem cloneNode_filterLog (opts : RenderOptions) (env : Env) (ts : String)
    (p : SNode → Bool) (hfil : opts.filter = some p) :
    ∀ (chain : List String) (st : St) (n : SNode) res,
      cloneNode opts env ts chain st n = .ok res →
        res.2.filterLog = st.filterLog ++ visitedIds p n := by
  refine cloneNode.induct opts env ts
    (fun chain st n => ∀ res, cloneNode opts env ts chain st n = .ok res →
      res.2.filterLog = st.filterLog ++ visitedIds p n)
    (fun chain st l => ∀ res, cloneKids opts env ts chain st l = .ok res →
      res.2.filterLog = st.filterLog ++ visitedIdsL p l)
    ?_ ?_ ?_ ?_ ?_ ?_ ?_ ?_
  · intro chain st i tag styles src w hh children st1 snap hres e0 hinl res heq
    simp only [cloneNode, hres, hinl] at heq
    exact Except.noConfusion heq
  · intro chain st i tag styles src w hh children st1 snap hres isrc st2 hinl
      c1 st3 hpre e0 hkids ih res heq
    simp only [cloneNode, hres, hinl, hpre, hkids] at heq
    exact Except.noConfusion heq
  · intro chain st i tag styles src w hh children st1 snap hres isrc st2 hinl
      c1 st3 hpre kids st4 hkids ih res heq
    have e1 : st1.filterLog = st.filterLog := by
      have := (resolveStyle_fields opts st chain ⟨tag, styles, src⟩).2.2.2.2
      rwa [hres] at this
    have e2 : st2.filterLog = st1.filterLog :=
      (inlineSrc_fields opts env ts st1 src isrc st2 hinl).2.2.1
    have e3 : st3.filterLog = st2.filterLog := by
      have := (preHook_fields opts (.mk i tag styles src w hh children)
        (.mk i tag snap isrc []) st2).2.2.2.2
      rwa [hpre] at this
    have e4 := ih (kids, st4) hkids
    simp only [cloneNode, hres, hinl, hpre, hkids, Except.ok.injEq] at heq
    rw [← heq]
    have e5 := (postHook_fields opts (.mk i tag styles src w hh children)
      (c1.attach kids) st4).2.2.2.2
    rw [e5]
    simp only at e4
    rw [e4, e3, e2, e1]
    simp [visitedIds]
  · intro chain st res heq
    simp only [cloneKids, Except.ok.injEq] at heq
    rw [← heq]
    simp [visitedIdsL]
  · intro chain st k rest hf e0 hcn ih res heq
    simp only [cloneKids, hf, if_true, hcn] at heq
    exact Except.noConfusion heq
  · intro chain st k rest hf c st1 hcn e0 hck ih1 ih2 res heq
    simp only [cloneKids, hf, if_true, hcn, hck] at heq
    exact Except.noConfusion heq
  · intro chain st k rest hf c st1 hcn kids st4 hck ih1 ih2 res heq
    have hpk : p k = true := by
      rwa [effFilter_some opts p hfil k] at hf
    have e1 := ih1 (c, st1) hcn
    have e2 := ih2 (kids, st4) hck
    simp only [cloneKids, hf, if_true, hcn, hck, Except.ok.injEq] at heq
    rw [← heq]
    simp only at e1 e2
    rw [e2, e1, stepFilter_filterLog_some opts p hfil st k]
    simp [visitedIdsL, hpk, List.append_assoc]
  · intro chain st k rest hf ih res heq
    have hpk : p k = false := by
      rw [effFilter_some opts p hfil k] at hf
      exact Bool.not_eq_true _ ▸ Bool.of_not_eq_true hf
    simp only [cloneKids, hf, if_false] at heq
    have e1 := ih res heq
    rw [e1, stepFilter_filterLog_some opts p hfil st k]
    simp [visitedIdsL, hpk, List.append_assoc]

theorem cloneNode_ids (opts : RenderOptions) (env : Env) (ts : String)
    (hadj : opts.adjustClonedNode = none) :
    ∀ (chain : List String) (st : St) (n : SNode) c st2,
      cloneNode opts env ts chain st n = .ok (c, st2) →
        cloneIds c = prunedIds (effFilter opts) n := by
  refine cloneNode.induct opts env ts
    (fun chain st n => ∀ c st2, cloneNode opts env ts chain st n = .ok (c, st2) →
      cloneIds c = prunedIds (effFilter opts) n)
    (fun chain st l => ∀ cs st2, cloneKids opts env ts chain st l = .ok (cs, st2) →
      cloneIdsL cs = prunedIdsL (effFilter opts) l)
    ?_ ?_ ?_ ?_ ?_ ?_ ?_ ?_
  · intro chain st i tag styles src w hh children st1 snap hres e0 hinl c st2 heq
    simp only [cloneNode, hres, hinl] at heq
    exact Except.noConfusion heq
  · intro chain st i tag styles src w hh children st1 snap hres isrc st2 hinl
      c1 st3 hpre e0 hkids ih c st4 heq
    simp only [cloneNode, hres, hinl, hpre, hkids] at heq
    exact Except.noConfusion heq
  · intro chain st i tag styles src w hh children st1 snap hres isrc st2 hinl
      c1 st3 hpre kids st4 hkids ih c st5 heq
    have hpost : ∀ (n0 : SNode) (c0 : Clone) (st0 : St),
        postHook opts n0 c0 st0 = (c0, st0) :=
      fun n0 c0 st0 => postHook_none opts n0 c0 st0 hadj
    have hpre' := hpre
    rw [preHook_none opts _ _ _ hadj, Prod.mk.injEq] at hpre'
    have hkidsIds := ih kids st4 hkids
    simp only [cloneNode, hres, hinl, hpre, hkids, hpost, Except.ok.injEq,
      Prod.mk.injEq] at heq
    rw [← heq.1, ← hpre'.1]
    simp only [Clone.attach, Clone.id, Clone.tag, Clone.style, Clone.src,
      Clone.children, List.nil_append, cloneIds, prunedIds]
    rw [hkidsIds]
  · intro chain st cs st2 heq
    simp only [cloneKids, Except.ok.injEq, Prod.mk.injEq] at heq
    rw [← heq.1]
    rfl
  · intro chain st k rest hf e0 hcn ih cs st2 heq
    simp only [cloneKids, hf, if_true, hcn] at heq
    exact Except.noConfusion heq
  · intro chain st k rest hf c st1 hcn e0 hck ih1 ih2 cs st2 heq
    simp only [cloneKids, hf, if_true, hcn, hck] at heq
    exact Except.noConfusion heq
  · intro chain st k rest hf c st1 hcn kids st4 hck ih1 ih2 cs st5 heq
    have h1 := ih1 c st1 hcn
    have h2 := ih2 kids st4 hck
    simp only [cloneKids, hf, if_true, hcn, hck, Except.ok.injEq,
      Prod.mk.injEq] at heq
    rw [← heq.1]
    simp only [cloneIdsL, prunedIdsL, hf, if_true]
    rw [h1, h2]
  · intro chain st k rest hf ih cs st2 heq
    simp only [cloneKids, hf, if_false] at heq
    have h1 := ih cs st2 heq
    rw [h1]
    simp [prunedIdsL, hf]

theorem cloneNode_fetchJust (opts : RenderOptions) (env : Env) (ts : String) :
    ∀ (chain : List String) (st : St) (n : SNode) res,
      cloneNode opts env ts chain st n = .ok res →
        ∀ kk, kk ∈ res.2.fetchLog →
          kk ∈ st.fetchLog ∨ some kk.1 ∈ srcsPruned (effFilter opts) n := by
  refine cloneNode.induct opts env ts
    (fun chain st n => ∀ res, cloneNode opts env ts chain st n = .ok res →
      ∀ kk, kk ∈ res.2.fetchLog →
        kk ∈ st.fetchLog ∨ some kk.1 ∈ srcsPruned (effFilter opts) n)
    (fun chain st l => ∀ res, cloneKids opts env ts chain st l = .ok res →
      ∀ kk, kk ∈ res.2.fetchLog →
        kk ∈ st.fetchLog ∨ some kk.1 ∈ srcsPrunedL (effFilter opts) l)
    ?_ ?_ ?_ ?_ ?_ ?_ ?_ ?_
  · intro chain st i tag styles src w hh children st1 snap hres e0 hinl res heq
    simp only [cloneNode, hres, hinl] at heq
    exact Except.noConfusion heq
  · intro chain st i tag styles src w hh children st1 snap hres isrc st2 hinl
      c1 st3 hpre e0 hkids ih res heq
    simp only [cloneNode, hres, hinl, hpre, hkids] at heq
    exact Except.noConfusion heq
  · intro chain st i tag styles src w hh children st1 snap hres isrc st2 hinl
      c1 st3 hpre kids st4 hkids ih res heq kk hkk
    have e1 : st1.fetchLog = st.fetchLog := by
      have := (resolveStyle_fields opts st chain ⟨tag, styles, src⟩).2.1
      rwa [hres] at this
    have e3 : st3.fetchLog = st2.fetchLog := by
      have := (preHook_fields opts (.mk i tag styles src w hh children)
        (.mk i tag snap isrc []) st2).2.2.1
      rwa [hpre] at this
    simp only [cloneNode, hres, hinl, hpre, hkids, Except.ok.injEq] at heq
    rw [← heq] at hkk
    have e5 := (postHook_fields opts (.mk i tag styles src w hh children)
      (c1.attach kids) st4).2.2.1
    rw [e5] at hkk
    cases ih (kids, st4) hkids kk hkk with
    | inr hmem =>
      right
      simp only [srcsPruned, List.mem_cons]
      exact Or.inr hmem
    | inl hin3 =>
      rw [e3] at hin3
      cases (inlineSrc_fields opts env ts st1 src isrc st2 hinl).2.2.2 with
      | inl hsame =>
        rw [hsame, e1] at hin3
        exact Or.inl hin3
      | inr hnew =>
        obtain ⟨u, hu, hlog⟩ := hnew
        rw [hlog, List.mem_append] at hin3
        cases hin3 with
        | inl hin1 =>
          rw [e1] at hin1
          exact Or.inl hin1
        | inr hin1 =>
          rw [List.mem_singleton] at hin1
          right
          simp only [srcsPruned, List.mem_cons]
          left
          rw [hu, hin1]
  · intro chain st res heq kk hkk
    simp only [cloneKids, Except.ok.injEq] at heq
    rw [← heq] at hkk
    exact Or.inl hkk
  · intro chain st k rest hf e0 hcn ih res heq
    simp only [cloneKids, hf, if_true, hcn] at heq
    exact Except.noConfusion heq
  · intro chain st k rest hf c st1 hcn e0 hck ih1 ih2 res heq
    simp only [cloneKids, hf, if_true, hcn, hck] at heq
    exact Except.noConfusion heq
  · intro chain st k rest hf c st1 hcn kids st4 hck ih1 ih2 res heq kk hkk
    simp only [cloneKids, hf, if_true, hcn, hck, Except.ok.injEq] at heq
    rw [← heq] at hkk
    cases ih2 (kids, st4) hck kk hkk with
    | inr hmem =>
      right
      simp only [srcsPrunedL, hf, if_true, List.mem_append]
      exact Or.inr hmem
    | inl hin1 =>
      cases ih1 (c, st1) hcn kk hin1 with
      | inr hmem =>
        right
        simp only [srcsPrunedL, hf, if_true, List.mem_append]
        exact Or.inl hmem
      | inl hin0 =>
        left
        have := (stepFilter_fields opts st k).2.2.1
        rwa [this] at hin0
  · intro chain st k rest hf ih res heq kk hkk
    simp only [cloneKids, hf, if_false] at heq
    cases ih res heq kk hkk with
    | inl hin0 =>
      left
      have := (stepFilter_fields opts st k).2.2.1
      rwa [this] at hin0
    | inr hmem =>
      right
      simpa [srcsPrunedL, hf] using hmem

theorem visitedIds_subset_descIds (p : SNode → Bool) :
    ∀ (n : SNode) (i : Nat), i ∈ visitedIds p n → i ∈ descIds n := by
  refine visitedIds.induct p
    (fun n => ∀ i, i ∈ visitedIds p n → i ∈ descIds n)
    (fun l => ∀ i, i ∈ visitedIdsL p l → i ∈ descIdsL l)
    ?_ ?_ ?_
  · intro i tag styles src w hh children ih i0 hi0
    simp only [visitedIds] at hi0
    simp only [descIds]
    exact ih i0 hi0
  · intro i hi
    simp [visitedIdsL] at hi
  · intro k rest ih1 ih2 i hi
    simp only [visitedIdsL, List.mem_cons, List.mem_append] at hi
    simp only [descIdsL, List.mem_cons, List.mem_append]
    cases hi with
    | inl hi => exact Or.inl hi
    | inr hi =>
      cases hi with
      | inr hi => exact Or.inr (Or.inr (ih2 i hi))
      | inl hi =>
        cases hpk : p k with
        | true =>
          simp only [hpk, if_true] at hi
          exact Or.inr (Or.inl (ih1 i hi))
        | false =>
          simp [hpk] at hi

theorem cloneIds_applyRootStyle (opts : RenderOptions) (c : Clone) :
    cloneIds (applyRootStyle opts c) = cloneIds c := by
  cases c
  rfl

/-- C2 (amended): for every conversion with a filter predicate configured
and no clone-adjustment hooks, over a source tree with distinct node ids:
the predicate is evaluated exactly on the visited descendants — every
child of a surviving node, never the root, and nothing below an excluded
node; the clone carries exactly the ids of the surviving nodes, so an
excluded node and its descendants never appear in the serialized output;
and every fetch issued belongs to a surviving node's resource
reference. -/
theorem C2_filter_pruning (opts : RenderOptions) (env : Env) (ts : String)
    (root : SNode) (p : SNode → Bool) (hfil : opts.filter = some p)
    (hadj : opts.adjustClonedNode = none) (honc : opts.onclone = none)
    (hnodup : (allIds root).Nodup) (r : Rendered)
    (h : convert opts env ts root = .ok r) :
    r.filterLog = visitedIds p root ∧
    root.id ∉ r.filterLog ∧
    cloneIds r.clone = prunedIds p root ∧
    ∀ kk, kk ∈ r.fetchLog → some kk.1 ∈ srcsPruned p root := by
  have heff : effFilter opts = p := funext (effFilter_some opts p hfil)
  unfold convert at h
  cases hc : cloneNode opts env ts [] initSt root with
  | error e =>
    rw [hc] at h
    exact Except.noConfusion h
  | ok pr =>
    obtain ⟨c, st⟩ := pr
    rw [hc] at h
    rw [Except.ok.injEq] at h
    subst h
    have hlog : st.filterLog = visitedIds p root := by
      have := cloneNode_filterLog opts env ts p hfil [] initSt root (c, st) hc
      simpa [initSt] using this
    refine ⟨hlog, ?_, ?_, ?_⟩
    · rw [hlog]
      intro hmem
      have hdesc := visitedIds_subset_descIds p root root.id hmem
      have : root.id ∉ descIds root := (List.nodup_cons.mp hnodup).1
      exact this hdesc
    · show cloneIds (runOncloneTree opts (applyRootStyle opts c)) = _
      simp only [runOncloneTree, honc]
      rw [cloneIds_applyRootStyle]
      have := cloneNode_ids opts env ts hadj [] initSt root c st hc
      rwa [heff] at this
    · intro kk hkk
      have := cloneNode_fetchJust opts env ts [] initSt root (c, st) hc kk hkk
      cases this with
      | inl habs => simp [initSt] at habs
      | inr hmem => rwa [heff] at hmem

/-- The spec section 8 filter scenario: exclude every img element. -/
def exOpts2 : RenderOptions := { filter := some (fun n => !(n.tag == "img")) }

/-- A root with one image child, for the C2 witness. -/
def exTree2 : SNode :=
  .mk 0 "div" [] none 100 50 [.mk 1 "img" [] (some "a.png") 1 1 []]

/-- The clone ids of a conversion outcome (empty on rejection). -/
def cloneIdsOf : Except ConvError Rendered → List Nat
  | .ok r => cloneIds r.clone
  | .error _ => []

/-- The filter-evaluation log of a conversion outcome. -/
def filterLogOf : Except ConvError Rendered → List Nat
  | .ok r => r.filterLog
  | .error _ => []

/-- Witness for C2 (amended), on the spec section 8 scenario: filtering
img away leaves only the root in the clone and no fetch occurs. -/
theorem C2_filter_pruning_witness :
    cloneIdsOf (convert exOpts2 exEnv9 "0" exTree2) = [0] ∧
    fetchLogOf (convert exOpts2 exEnv9 "0" exTree2) = [] := by
  obtain ⟨r, hr⟩ : ∃ r, convert exOpts2 exEnv9 "0" exTree2 = .ok r := ⟨_, rfl⟩
  obtain ⟨_, _, hids, hfetch⟩ :=
    C2_filter_pruning exOpts2 exEnv9 "0" exTree2 _ rfl rfl rfl (by decide) r hr
  constructor
  · rw [hr]
    simp only [cloneIdsOf]
    rw [hids]
    rfl
  · rw [hr]
    simp only [fetchLogOf]
    rw [List.eq_nil_iff_forall_not_mem]
    intro kk hkk
    have := hfetch kk hkk
    rw [show srcsPruned (fun n => !(n.tag == "img")) exTree2 = [none] from rfl] at this
    rw [List.mem_singleton] at this
    exact Option.noConfusion this

/-- The reject-everything filter of the C2 counterexample. -/
def exOptsC2 : RenderOptions := { filter := some (fun _ => false) }

/-- A three-level chain: the middle node is excluded, so the filter is
never evaluated on the innermost descendant. -/
def exTreeC2 : SNode :=
  .mk 0 "div" [] none 5 5 [.mk 1 "span" [] none 1 1 [.mk 2 "b" [] none 1 1 []]]

/-- Counterexample to C2 as stated: node 2 is a descendant of the root,
yet the filter predicate is never evaluated on it, because its parent
(node 1) was excluded and the walk prunes the whole subtree. -/
theorem C2_counterexample :
    2 ∈ descIds exTreeC2 ∧
    2 ∉ filterLogOf (convert exOptsC2 exEnv0 "0" exTreeC2) := by
  constructor
  · decide
  · decide

theorem preHook_some (opts : RenderOptions) (f : SNode → Clone → Bool → Clone)
    (hadj : opts.adjustClonedNode = some f) (n : SNode) (c : Clone) (st : St) :
    preHook opts n c st
      = (f n c false, { st with hookLog := st.hookLog ++ [(n.id, false)] }) := by
  unfold preHook
  rw [hadj]

theorem postHook_some (opts : RenderOptions) (f : SNode → Clone → Bool → Clone)
    (hadj : opts.adjustClonedNode = some f) (n : SNode) (c : Clone) (st : St) :
    postHook opts n c st
      = (f n c true, { st with hookLog := st.hookLog ++ [(n.id, true)] }) := by
  unfold postHook
  rw [hadj]

theorem cloneNode_hookLog (opts : RenderOptions) (env : Env) (ts : String)
    (f : SNode → Clone → Bool → Clone) (hadj : opts.adjustClonedNode = some f) :
    ∀ (chain : List String) (st : St) (n : SNode) res,
      cloneNode opts env ts chain st n = .ok res →
        res.2.hookLog = st.hookLog ++ expHookLog (effFilter opts) n := by
  refine cloneNode.induct opts env ts
    (fun chain st n => ∀ res, cloneNode opts env ts chain st n = .ok res →
      res.2.hookLog = st.hookLog ++ expHookLog (effFilter opts) n)
    (fun chain st l => ∀ res, cloneKids opts env ts chain st l = .ok res →
      res.2.hookLog = st.hookLog ++ expHookLogL (effFilter opts) l)
    ?_ ?_ ?_ ?_ ?_ ?_ ?_ ?_
  · intro chain st i tag styles src w hh children st1 snap hres e0 hinl res heq
    simp only [cloneNode, hres, hinl] at heq
    exact Except.noConfusion heq
  · intro chain st i tag styles src w hh children st1 snap hres isrc st2 hinl
      c1 st3 hpre e0 hkids ih res heq
    simp only [cloneNode, hres, hinl, hpre, hkids] at heq
    exact Except.noConfusion heq
  · intro chain st i tag styles src w hh children st1 snap hres isrc st2 hinl
      c1 st3 hpre kids st4 hkids ih res heq
    have e1 : st1.hookLog = st.hookLog := by
      have := (resolveStyle_fields opts st chain ⟨tag, styles, src⟩).2.2.2.1
      rwa [hres] at this
    have e2 : st2.hookLog = st1.hookLog :=
      (inlineSrc_fields opts env ts st1 src isrc st2 hinl).2.1
    have hpre' := hpre
    rw [preHook_some opts f hadj, Prod.mk.injEq] at hpre'
    have e3 : st3.hookLog = st2.hookLog ++ [(i, false)] := by
      rw [← hpre'.2]
      rfl
    have e4 := ih (kids, st4) hkids
    simp only at e4
    simp only [cloneNode, hres, hinl, hpre, hkids,
      postHook_some opts f hadj, Except.ok.injEq] at heq
    rw [← heq]
    show st4.hookLog ++ [(i, true)] = _
    rw [e4, e3, e2, e1]
    simp [expHookLog, List.append_assoc]
  · intro chain st res heq
    simp only [cloneKids, Except.ok.injEq] at heq
    rw [← heq]
    simp [expHookLogL]
  · intro chain st k rest hf e0 hcn ih res heq
    simp only [cloneKids, hf, if_true, hcn] at heq
    exact Except.noConfusion heq
  · intro chain st k rest hf c st1 hcn e0 hck ih1 ih2 res heq
    simp only [cloneKids, hf, if_true, hcn, hck] at heq
    exact Except.noConfusion heq
  · intro chain st k rest hf c st1 hcn kids st4 hck ih1 ih2 res heq
    have e1 := ih1 (c, st1) hcn
    have e2 := ih2 (kids, st4) hck
    simp only at e1 e2
    have e0 : (stepFilter opts st k).hookLog = st.hookLog :=
      (stepFilter_fields opts st k).2.2.2.2
    simp only [cloneKids, hf, if_true, hcn, hck, Except.ok.injEq] at heq
    rw [← heq]
    show st4.hookLog = _
    rw [e2, e1, e0]
    simp [expHookLogL, hf, List.append_assoc]
  · intro chain st k rest hf ih res heq
    simp only [cloneKids, hf, if_false] at heq
    have e1 := ih res heq
    have e0 : (stepFilter opts st k).hookLog = st.hookLog :=
      (stepFilter_fields opts st k).2.2.2.2
    rw [e1, e0]
    simp [expHookLogL, hf]

/-- A post-phase renaming hook, used to exhibit that the node returned by
`adjustClonedNode` is what propagates into the final clone tree. -/
def fRename : SNode → Clone → Bool → Clone :=
  fun _ c after =>
    if after then .mk c.id (c.tag ++ "!") c.style c.src c.children else c

/-- Options configuring the renaming adjustment hook. -/
def exOpts5 : RenderOptions := { adjustClonedNode := some fRename }

/-- A two-node tree for the C5 demonstration. -/
def exTree5 : SNode := .mk 0 "div" [] none 10 10 [.mk 1 "span" [] none 1 1 []]

/-- The root clone's tag of a conversion outcome. -/
def rootTagOf : Except ConvError Rendered → String
  | .ok r => r.clone.tag
  | .error _ => ""

/-- The root clone's children's tags of a conversion outcome. -/
def childTagsOf : Except ConvError Rendered → List String
  | .ok r => r.clone.children.map Clone.tag
  | .error _ => []

/-- The hook-invocation log of a conversion outcome. -/
def hookLogOf : Except ConvError Rendered → List (Nat × Bool)
  | .ok r => r.hookLog
  | .error _ => []

/-- C5: with `adjustClonedNode` configured, the hook-invocation log of a
resolved conversion is exactly the spec's per-node protocol: for every
cloned node one call with phase flag false (children not yet present),
then the calls of its surviving children, then one call with phase flag
true (children attached) — so each cloned node sees exactly two calls.
Moreover the node returned by the hook is what is attached and propagates:
with a post-phase renaming hook, both the root clone and its attached
child carry the renamed tag in the final tree. -/
theorem C5_adjust_hook_twice (opts : RenderOptions) (env : Env) (ts : String)
    (root : SNode) (f : SNode → Clone → Bool → Clone)
    (hadj : opts.adjustClonedNode = some f) (r : Rendered)
    (h : convert opts env ts root = .ok r) :
    r.hookLog = expHookLog (effFilter opts) root ∧
    rootTagOf (convert exOpts5 exEnv0 "0" exTree5) = "div!" ∧
    childTagsOf (convert exOpts5 exEnv0 "0" exTree5) = ["span!"] := by
  refine ⟨?_, rfl, rfl⟩
  unfold convert at h
  cases hc : cloneNode opts env ts [] initSt root with
  | error e =>
    rw [hc] at h
    exact Except.noConfusion h
  | ok pr =>
    obtain ⟨c, st⟩ := pr
    rw [hc] at h
    rw [Except.ok.injEq] at h
    subst h
    have := cloneNode_hookLog opts env ts f hadj [] initSt root (c, st) hc
    simpa [initSt] using this

/-- Witness for C5: on the two-node tree with the renaming hook, the hook
log is exactly pre-root, pre-child, post-child, post-root. -/
theorem C5_adjust_hook_twice_witness :
    hookLogOf (convert exOpts5 exEnv0 "0" exTree5)
      = [(0, false), (1, false), (1, true), (0, true)] := by
  obtain ⟨r, hr⟩ : ∃ r, convert exOpts5 exEnv0 "0" exTree5 = .ok r := ⟨_, rfl⟩
  have h :=
    (C5_adjust_hook_twice exOpts5 exEnv0 "0" exTree5 fRename rfl r hr).1
  rw [hr]
  simp only [hookLogOf]
  rw [h]
  rfl

/-! Determinism across timestamps: the cache-busting timestamp can reach
only the raw request log, so two conversions of the same static input at
different times agree on everything but that log. -/

/-- Agreement of two operation states on every component except the raw
request log. -/
def stripSame (st st' : St) : Prop :=
  st.resCache = st'.resCache ∧ st.styleCache = st'.styleCache ∧
  st.fetchLog = st'.fetchLog ∧ st.hookLog = st'.hookLog ∧
  st.filterLog = st'.filterLog

theorem stripSame_refl (st : St) : stripSame st st :=
  ⟨rfl, rfl, rfl, rfl, rfl⟩

theorem resolveStyle_parallel (opts : RenderOptions) (st st' : St)
    (chain : List String) (s : Sig) (h : stripSame st st')
    (st1 : St) (snap : List (String × String))
    (heq : resolveStyle opts st chain s = (st1, snap)) :
    ∃ st1', resolveStyle opts st' chain s = (st1', snap) ∧
      stripSame st1 st1' := by
  unfold resolveStyle at heq ⊢
  cases hl : lookupA (styleKey opts chain s) st.styleCache with
  | some snap0 =>
    rw [hl] at heq
    rw [Prod.mk.injEq] at heq
    have hl' : lookupA (styleKey opts chain s) st'.styleCache = some snap0 := by
      rw [← h.2.1]
      exact hl
    rw [hl']
    exact ⟨st', by rw [heq.2], heq.1 ▸ h⟩
  | none =>
    rw [hl] at heq
    rw [Prod.mk.injEq] at heq
    have hl' : lookupA (styleKey opts chain s) st'.styleCache = none := by
      rw [← h.2.1]
      exact hl
    rw [hl']
    refine ⟨{ st' with styleCache :=
        (styleKey opts chain s, computeStyleK opts chain s) :: st'.styleCache },
      ?_, ?_⟩
    · rw [← heq.2]
    · rw [← heq.1]
      exact ⟨h.1, by simp [h.2.1], h.2.2.1, h.2.2.2.1, h.2.2.2.2⟩

theorem inlineResource_parallel (opts : RenderOptions) (env : Env)
    (ts1 ts2 : String) (st st' : St) (u : Url) (h : stripSame st st') :
    (inlineResource opts env ts1 st u).2 = (inlineResource opts env ts2 st' u).2 ∧
    stripSame (inlineResource opts env ts1 st u).1
      (inlineResource opts env ts2 st' u).1 := by
  unfold inlineResource
  rw [← h.1]
  cases hl : lookupA (u, credFor opts u) st.resCache with
  | some r => exact ⟨rfl, h⟩
  | none =>
    refine ⟨rfl, ?_⟩
    exact ⟨by simp [h.1], by simp [h.2.1], by simp [h.2.2.1],
      by simp [h.2.2.2.1], by simp [h.2.2.2.2]⟩

theorem inlineSrc_parallel_ok (opts : RenderOptions) (env : Env)
    (ts1 ts2 : String) (st st' : St) (src : Option Url) (h : stripSame st st')
    (isrc : Option Data) (st2 : St)
    (heq : inlineSrc opts env ts1 st src = .ok (isrc, st2)) :
    ∃ st2', inlineSrc opts env ts2 st' src = .ok (isrc, st2') ∧
      stripSame st2 st2' := by
  unfold inlineSrc at heq ⊢
  cases src with
  | none =>
    rw [Except.ok.injEq, Prod.mk.injEq] at heq
    exact ⟨st', by rw [← heq.1], heq.2 ▸ h⟩
  | some u =>
    obtain ⟨hv, hs⟩ := inlineResource_parallel opts env ts1 ts2 st st' u h
    simp only at heq ⊢
    rw [← hv]
    cases hr : resourcePolicy opts u (inlineResource opts env ts1 st u).2 with
    | error e =>
      rw [hr] at heq
      exact Except.noConfusion heq
    | ok d =>
      rw [hr] at heq
      rw [Except.ok.injEq, Prod.mk.injEq] at heq
      refine ⟨_, ?_, heq.2 ▸ hs⟩
      rw [← heq.1]

theorem inlineSrc_parallel_error (opts : RenderOptions) (env : Env)
    (ts1 ts2 : String) (st st' : St) (src : Option Url) (h : stripSame st st')
    (e : ConvError) (heq : inlineSrc opts env ts1 st src = .error e) :
    inlineSrc opts env ts2 st' src = .error e := by
  unfold inlineSrc at heq ⊢
  cases src with
  | none => exact Except.noConfusion heq
  | some u =>
    obtain ⟨hv, hs⟩ := inlineResource_parallel opts env ts1 ts2 st st' u h
    simp only at heq ⊢
    rw [← hv]
    cases hr : resourcePolicy opts u (inlineResource opts env ts1 st u).2 with
    | error e0 =>
      rw [hr] at heq
      exact heq
    | ok d =>
      rw [hr] at heq
      exact Except.noConfusion heq

theorem preHook_parallel (opts : RenderOptions) (n : SNode) (c : Clone)
    (st st' : St) (h : stripSame st st') (c1 : Clone) (st3 : St)
    (heq : preHook opts n c st = (c1, st3)) :
    ∃ st3', preHook opts n c st' = (c1, st3') ∧ stripSame st3 st3' := by
  unfold preHook at heq ⊢
  cases hopt : opts.adjustClonedNode with
  | none =>
    simp only [hopt] at heq
    rw [Prod.mk.injEq] at heq
    exact ⟨st', by rw [heq.1], heq.2 ▸ h⟩
  | some f =>
    simp only [hopt] at heq
    rw [Prod.mk.injEq] at heq
    refine ⟨{ st' with hookLog := st'.hookLog ++ [(n.id, false)] }, ?_, ?_⟩
    · rw [← heq.1]
    · rw [← heq.2]
      exact ⟨h.1, h.2.1, h.2.2.1, by simp [h.2.2.2.1], h.2.2.2.2⟩

theorem postHook_parallel (opts : RenderOptions) (n : SNode) (c : Clone)
    (st st' : St) (h : stripSame st st') :
    (postHook opts n c st).1 = (postHook opts n c st').1 ∧
    stripSame (postHook opts n c st).2 (postHook opts n c st').2 := by
  unfold postHook
  cases hopt : opts.adjustClonedNode with
  | none => exact ⟨rfl, h⟩
  | some f =>
    refine ⟨rfl, ?_⟩
    exact ⟨h.1, h.2.1, h.2.2.1, by simp [h.2.2.2.1], h.2.2.2.2⟩

theorem stepFilter_parallel (opts : RenderOptions) (st st' : St) (k : SNode)
    (h : stripSame st st') :
    stripSame (stepFilter opts st k) (stepFilter opts st' k) := by
  unfold stepFilter
  cases hopt : opts.filter with
  | none => exact h
  | some p =>
    exact ⟨h.1, h.2.1, h.2.2.1, h.2.2.2.1, by simp [h.2.2.2.2]⟩

/-- Outcome relation between two runs that differ only in timestamp:
identical rejection, or identical clone with states agreeing off the raw
request log. -/
def outRel : Except ConvError (Clone × St) → Except ConvError (Clone × St) → Prop
  | .error e, .error e' => e = e'
  | .ok (c, st), .ok (c', st') => c = c' ∧ stripSame st st'
  | _, _ => False

/-- The same relation for child-list outcomes. -/
def outRelL : Except ConvError (List Clone × St) →
    Except ConvError (List Clone × St) → Prop
  | .error e, .error e' => e = e'
  | .ok (cs, st), .ok (cs', st') => cs = cs' ∧ stripSame st st'
  | _, _ => False

theorem cloneNode_parallel (opts : RenderOptions) (env : Env)
    (ts1 ts2 : String) :
    ∀ (chain : List String) (st : St) (n : SNode) (st' : St),
      stripSame st st' →
        outRel (cloneNode opts env ts1 chain st n)
          (cloneNode opts env ts2 chain st' n) := by
  refine cloneNode.induct opts env ts1
    (fun chain st n => ∀ st', stripSame st st' →
      outRel (cloneNode opts env ts1 chain st n)
        (cloneNode opts env ts2 chain st' n))
    (fun chain st l => ∀ st', stripSame st st' →
      outRelL (cloneKids opts env ts1 chain st l)
        (cloneKids opts env ts2 chain st' l))
    ?_ ?_ ?_ ?_ ?_ ?_ ?_ ?_
  · intro chain st i tag styles src w hh children st1 snap hres e0 hinl st' hss
    obtain ⟨st1', hres', hss1⟩ :=
      resolveStyle_parallel opts st st' chain ⟨tag, styles, src⟩ hss st1 snap hres
    have hinl' := inlineSrc_parallel_error opts env ts1 ts2 st1 st1' src hss1 e0 hinl
    simp only [cloneNode, hres, hinl, hres', hinl']
    exact rfl
  · intro chain st i tag styles src w hh children st1 snap hres isrc st2 hinl
      c1 st3 hpre e0 hkids ih st' hss
    obtain ⟨st1', hres', hss1⟩ :=
      resolveStyle_parallel opts st st' chain ⟨tag, styles, src⟩ hss st1 snap hres
    obtain ⟨st2', hinl', hss2⟩ :=
      inlineSrc_parallel_ok opts env ts1 ts2 st1 st1' src hss1 isrc st2 hinl
    obtain ⟨st3', hpre', hss3⟩ :=
      preHook_parallel opts (.mk i tag styles src w hh children)
        (.mk i tag snap isrc []) st2 st2' hss2 c1 st3 hpre
    have ihr := ih st3' hss3
    rw [hkids] at ihr
    cases hk2 : cloneKids opts env ts2 (chain ++ [tag]) st3' children with
    | error e2 =>
      rw [hk2] at ihr
      have he : e0 = e2 := ihr
      simp only [cloneNode, hres, hinl, hpre, hkids, hres', hinl', hpre', hk2]
      exact he
    | ok p2 =>
      rw [hk2] at ihr
      obtain ⟨cs2, st42⟩ := p2
      exact absurd ihr (by simp [outRelL])
  · intro chain st i tag styles src w hh children st1 snap hres isrc st2 hinl
      c1 st3 hpre kids st4 hkids ih st' hss
    obtain ⟨st1', hres', hss1⟩ :=
      resolveStyle_parallel opts st st' chain ⟨tag, styles, src⟩ hss st1 snap hres
    obtain ⟨st2', hinl', hss2⟩ :=
      inlineSrc_parallel_ok opts env ts1 ts2 st1 st1' src hss1 isrc st2 hinl
    obtain ⟨st3', hpre', hss3⟩ :=
      preHook_parallel opts (.mk i tag styles src w hh children)
        (.mk i tag snap isrc []) st2 st2' hss2 c1 st3 hpre
    have ihr := ih st3' hss3
    rw [hkids] at ihr
    cases hk2 : cloneKids opts env ts2 (chain ++ [tag]) st3' children with
    | error e2 =>
      rw [hk2] at ihr
      exact absurd ihr (by simp [outRelL])
    | ok p2 =>
      rw [hk2] at ihr
      obtain ⟨kids2, st42⟩ := p2
      obtain ⟨hkeq, hss4⟩ := ihr
      obtain ⟨hpost1, hpost2⟩ :=
        postHook_parallel opts (.mk i tag styles src w hh children)
          (c1.attach kids) st4 st42 hss4
      simp only [cloneNode, hres, hinl, hpre, hkids, hres', hinl', hpre', hk2]
      rw [← hkeq]
      show (postHook opts _ (c1.attach kids) st4).1
            = (postHook opts _ (c1.attach kids) st42).1 ∧
          stripSame (postHook opts _ (c1.attach kids) st4).2
            (postHook opts _ (c1.attach kids) st42).2
      exact ⟨hpost1, hpost2⟩
  · intro chain st st' hss
    simp only [cloneKids]
    exact ⟨rfl, hss⟩
  · intro chain st k rest hf e0 hcn ih st' hss
    have hssf := stepFilter_parallel opts st st' k hss
    have ihr := ih (stepFilter opts st' k) hssf
    rw [hcn] at ihr
    cases hc2 : cloneNode opts env ts2 chain (stepFilter opts st' k) k with
    | error e2 =>
      rw [hc2] at ihr
      simp only [cloneKids, hf, if_true, hcn, hc2]
      exact ihr
    | ok p2 =>
      rw [hc2] at ihr
      obtain ⟨c2, st12⟩ := p2
      exact absurd ihr (by simp [outRel])
  · intro chain st k rest hf c st1 hcn e0 hck ih1 ih2 st' hss
    have hssf := stepFilter_parallel opts st st' k hss
    have ihr1 := ih1 (stepFilter opts st' k) hssf
    rw [hcn] at ihr1
    cases hc2 : cloneNode opts env ts2 chain (stepFilter opts st' k) k with
    | error e2 =>
      rw [hc2] at ihr1
      exact absurd ihr1 (by simp [outRel])
    | ok p2 =>
      rw [hc2] at ihr1
      obtain ⟨c2, st12⟩ := p2
      obtain ⟨hceq, hss1⟩ := ihr1
      have ihr2 := ih2 st12 hss1
      rw [hck] at ihr2
      cases hk2 : cloneKids opts env ts2 chain st12 rest with
      | error e2 =>
        rw [hk2] at ihr2
        simp only [cloneKids, hf, if_true, hcn, hck, hc2, hk2]
        exact ihr2
      | ok p3 =>
        rw [hk2] at ihr2
        obtain ⟨cs3, st23⟩ := p3
        exact absurd ihr2 (by simp [outRelL])
  · intro chain st k rest hf c st1 hcn kids st4 hck ih1 ih2 st' hss
    have hssf := stepFilter_parallel opts st st' k hss
    have ihr1 := ih1 (stepFilter opts st' k) hssf
    rw [hcn] at ihr1
    cases hc2 : cloneNode opts env ts2 chain (stepFilter opts st' k) k with
    | error e2 =>
      rw [hc2] at ihr1
      exact absurd ihr1 (by simp [outRel])
    | ok p2 =>
      rw [hc2] at ihr1
      obtain ⟨c2, st12⟩ := p2
      obtain ⟨hceq, hss1⟩ := ihr1
      have ihr2 := ih2 st12 hss1
      rw [hck] at ihr2
      cases hk2 : cloneKids opts env ts2 chain st12 rest with
      | error e2 =>
        rw [hk2] at ihr2
        exact absurd ihr2 (by simp [outRelL])
      | ok p3 =>
        rw [hk2] at ihr2
        obtain ⟨cs3, st23⟩ := p3
        obtain ⟨hcs, hss2⟩ := ihr2
        simp only [cloneKids, hf, if_true, hcn, hck, hc2, hk2]
        exact ⟨by rw [hceq, hcs], hss2⟩
  · intro chain st k rest hf ih st' hss
    have hssf := stepFilter_parallel opts st st' k hss
    have ihr := ih (stepFilter opts st' k) hssf
    simp only [cloneKids, hf, if_false]
    exact ihr

/-- A conversion outcome without its raw request log: the clone, the SVG
markup, the surface, and the remaining ghost logs. -/
def coreOf : Except ConvError Rendered →
    Except ConvError
      (Clone × String × Surface × List (Url × Bool) × List (Nat × Bool) × List Nat) :=
  Except.map
    (fun r => (r.clone, r.markup, r.surface, r.fetchLog, r.hookLog, r.filterLog))

/-- C1: converting the same static subtree with the same options and the
same static environment is deterministic: two runs, even at different
cache-busting timestamps, agree byte for byte on the SVG markup — and on
the clone, the surface and every log except the raw request log, the only
place the cache-busting query parameter ever reaches.  In particular two
runs at the same timestamp are identical outright. -/
theorem C1_deterministic_markup (opts : RenderOptions) (env : Env)
    (ts1 ts2 : String) (root : SNode) :
    coreOf (convert opts env ts1 root) = coreOf (convert opts env ts2 root) := by
  have hrel := cloneNode_parallel opts env ts1 ts2 [] initSt root initSt
    (stripSame_refl initSt)
  unfold convert
  cases h1 : cloneNode opts env ts1 [] initSt root with
  | error e1 =>
    rw [h1] at hrel
    cases h2 : cloneNode opts env ts2 [] initSt root with
    | error e2 =>
      rw [h2] at hrel
      have he : e1 = e2 := hrel
      rw [he]
    | ok p2 =>
      rw [h2] at hrel
      obtain ⟨c2, st2⟩ := p2
      exact absurd hrel (by simp [outRel])
  | ok p1 =>
    obtain ⟨c1, st1⟩ := p1
    rw [h1] at hrel
    cases h2 : cloneNode opts env ts2 [] initSt root with
    | error e2 =>
      rw [h2] at hrel
      exact absurd hrel (by simp [outRel])
    | ok p2 =>
      obtain ⟨c2, st2⟩ := p2
      rw [h2] at hrel
      obtain ⟨hc, hss⟩ := hrel
      subst hc
      simp only [coreOf, Except.map]
      rw [hss.2.2.1, hss.2.2.2.1, hss.2.2.2.2]

/-! Default-style seeding: with `copyDefaultStyles` on, every property of
the user-agent baseline for a node's tag appears explicitly in its
StyleSnapshot. -/

theorem mem_keys_mergeAssoc_left (lo hi : List (String × String))
    (k : String) (hk : k ∈ keysOf lo) : k ∈ keysOf (mergeAssoc lo hi) := by
  unfold mergeAssoc
  unfold keysOf at hk ⊢
  rw [List.map_append, List.mem_append]
  by_cases hhi : k ∈ keysOf hi
  · exact Or.inl hhi
  · right
    obtain ⟨kv, hkv, hk1⟩ := List.mem_map.mp hk
    refine List.mem_map.mpr ⟨kv, ?_, hk1⟩
    rw [List.mem_filter]
    refine ⟨hkv, ?_⟩
    rw [hk1]
    exact decide_eq_true hhi

theorem computeStyleK_keys (opts : RenderOptions)
    (hcopy : opts.copyDefaultStyles = true) (hfs : opts.filterStyles = none)
    (chain : List String) (s : Sig) (pk : String)
    (hpk : pk ∈ keysOf (uaDefault s.tag)) :
    pk ∈ keysOf (computeStyleK opts chain s) := by
  unfold computeStyleK
  rw [hcopy, hfs]
  simp only [if_true]
  exact mem_keys_mergeAssoc_left _ _ pk (mem_keys_mergeAssoc_left _ _ pk hpk)

theorem styleKey_sig (opts : RenderOptions) (chain : List String) (s : Sig) :
    (styleKey opts chain s).2 = s := by
  unfold styleKey
  cases opts.styleCaching <;> rfl

/-- Cache invariant for default-style seeding: every cached snapshot holds
every user-agent baseline property of its key's tag. -/
def uaInv (st : St) : Prop :=
  ∀ key snap, lookupA key st.styleCache = some snap →
    ∀ pk, pk ∈ keysOf (uaDefault (Sig.tag key.2)) → pk ∈ keysOf snap

theorem resolveStyle_ua (opts : RenderOptions)
    (hcopy : opts.copyDefaultStyles = true) (hfs : opts.filterStyles = none)
    (st : St) (chain : List String) (s : Sig) (h : uaInv st) :
    uaInv (resolveStyle opts st chain s).1 ∧
    ∀ pk, pk ∈ keysOf (uaDefault s.tag) →
      pk ∈ keysOf (resolveStyle opts st chain s).2 := by
  unfold resolveStyle
  cases hl : lookupA (styleKey opts chain s) st.styleCache with
  | some snap =>
    refine ⟨h, ?_⟩
    intro pk hpk
    have := h _ _ hl pk
    rw [styleKey_sig] at this
    exact this hpk
  | none =>
    constructor
    · intro key snap hkey pk hpk
      rw [lookupA_cons] at hkey
      split at hkey
      · rename_i hkk
        rw [Option.some.injEq] at hkey
        rw [← hkey]
        rw [← hkk] at hpk
        rw [styleKey_sig] at hpk
        exact computeStyleK_keys opts hcopy hfs chain s pk hpk
      · exact h _ _ hkey pk hpk
    · intro pk hpk
      exact computeStyleK_keys opts hcopy hfs chain s pk hpk

theorem uaInv_stepFilter (opts : RenderOptions) (st : St) (k : SNode)
    (h : uaInv st) : uaInv (stepFilter opts st k) := by
  intro key snap hkey
  rw [(stepFilter_fields opts st k).2.1] at hkey
  exact h key snap hkey

/-- Every subclone of a resolved conversion carries the full user-agent
baseline of its own tag, under default-style seeding. -/
def uaClone (c : Clone) : Prop :=
  ∀ m, m ∈ subclones c →
    ∀ pk, pk ∈ keysOf (uaDefault m.tag) → pk ∈ keysOf m.style

def uaCloneL (cs : List Clone) : Prop :=
  ∀ m, m ∈ subclonesL cs →
    ∀ pk, pk ∈ keysOf (uaDefault m.tag) → pk ∈ keysOf m.style

theorem cloneNode_ua (opts : RenderOptions) (env : Env) (ts : String)
    (hcopy : opts.copyDefaultStyles = true) (hfs : opts.filterStyles = none)
    (hadj : opts.adjustClonedNode = none) :
    ∀ (chain : List String) (st : St) (n : SNode), uaInv st →
      ∀ c st2, cloneNode opts env ts chain st n = .ok (c, st2) →
        uaInv st2 ∧ uaClone c := by
  refine cloneNode.induct opts env ts
    (fun chain st n => uaInv st → ∀ c st2,
      cloneNode opts env ts chain st n = .ok (c, st2) → uaInv st2 ∧ uaClone c)
    (fun chain st l => uaInv st → ∀ cs st2,
      cloneKids opts env ts chain st l = .ok (cs, st2) → uaInv st2 ∧ uaCloneL cs)
    ?_ ?_ ?_ ?_ ?_ ?_ ?_ ?_
  · intro chain st i tag styles src w hh children st1 snap hres e0 hinl
      hst c st2 heq
    simp only [cloneNode, hres, hinl] at heq
    exact Except.noConfusion heq
  · intro chain st i tag styles src w hh children st1 snap hres isrc st2 hinl
      c1 st3 hpre e0 hkids ih hst c st4 heq
    simp only [cloneNode, hres, hinl, hpre, hkids] at heq
    exact Except.noConfusion heq
  · intro chain st i tag styles src w hh children st1 snap hres isrc st2 hinl
      c1 st3 hpre kids st4 hkids ih hst c st5 heq
    obtain ⟨hinv1, hsnap⟩ :=
      resolveStyle_ua opts hcopy hfs st chain ⟨tag, styles, src⟩ hst
    rw [hres] at hinv1 hsnap
    have hinv2 : uaInv st2 := by
      have := (inlineSrc_fields opts env ts st1 src isrc st2 hinl).1
      intro key snap hkey
      rw [this] at hkey
      exact hinv1 key snap hkey
    have hpost : ∀ (n0 : SNode) (c0 : Clone) (st0 : St),
        postHook opts n0 c0 st0 = (c0, st0) :=
      fun n0 c0 st0 => postHook_none opts n0 c0 st0 hadj
    have hpre' := hpre
    rw [preHook_none opts _ _ _ hadj, Prod.mk.injEq] at hpre'
    have hinv3 : uaInv st3 := by
      rw [← hpre'.2]
      exact hinv2
    obtain ⟨hinv4, hkidsUa⟩ := ih hinv3 kids st4 hkids
    simp only [cloneNode, hres, hinl, hpre, hkids, hpost, Except.ok.injEq,
      Prod.mk.injEq] at heq
    refine ⟨heq.2 ▸ hinv4, ?_⟩
    rw [← heq.1, ← hpre'.1]
    intro m hm pk hpk
    simp only [Clone.attach, Clone.id, Clone.tag, Clone.style, Clone.src,
      Clone.children, List.nil_append, subclones, List.mem_cons] at hm
    cases hm with
    | inl hm =>
      subst hm
      simp only [Clone.tag, Clone.style] at hpk ⊢
      exact hsnap pk hpk
    | inr hm => exact hkidsUa m hm pk hpk
  · intro chain st hst cs st2 heq
    simp only [cloneKids, Except.ok.injEq, Prod.mk.injEq] at heq
    refine ⟨heq.2 ▸ hst, ?_⟩
    rw [← heq.1]
    intro m hm
    simp [subclonesL] at hm
  · intro chain st k rest hf e0 hcn ih hst cs st2 heq
    simp only [cloneKids, hf, if_true, hcn] at heq
    exact Except.noConfusion heq
  · intro chain st k rest hf c st1 hcn e0 hck ih1 ih2 hst cs st2 heq
    simp only [cloneKids, hf, if_true, hcn, hck] at heq
    exact Except.noConfusion heq
  · intro chain st k rest hf c st1 hcn kids st4 hck ih1 ih2 hst cs st5 heq
    obtain ⟨hinv1, hcUa⟩ := ih1 (uaInv_stepFilter opts st k hst) c st1 hcn
    obtain ⟨hinv2, hkidsUa⟩ := ih2 hinv1 kids st4 hck
    simp only [cloneKids, hf, if_true, hcn, hck, Except.ok.injEq,
      Prod.mk.injEq] at heq
    refine ⟨heq.2 ▸ hinv2, ?_⟩
    rw [← heq.1]
    intro m hm pk hpk
    simp only [subclonesL, List.mem_append] at hm
    cases hm with
    | inl hm => exact hcUa m hm pk hpk
    | inr hm => exact hkidsUa m hm pk hpk
  · intro chain st k rest hf ih hst cs st2 heq
    simp only [cloneKids, hf, if_false] at heq
    exact ih (uaInv_stepFilter opts st k hst) cs st2 heq

theorem uaInv_initSt : uaInv initSt := by
  intro key snap hkey
  simp [initSt, lookupA] at hkey

theorem self_mem_subclones (c : Clone) : c ∈ subclones c := by
  cases c
  simp only [subclones]
  exact List.mem_cons_self _ _

/-- C8: when `copyDefaultStyles` is enabled (its default) and no style
filter drops properties, the Style Resolver seeds each clone's
StyleSnapshot with the user-agent baseline for the clone's tag: every
baseline property appears explicitly in the snapshot of every clone of a
resolved conversion (stated for conversions without clone-adjustment
hooks, which could rewrite snapshots arbitrarily).  The speed/fidelity
reading of disabling the flag is a design note, not a machine-checkable
property. -/
theorem C8_default_styles_seeded (opts : RenderOptions) (env : Env)
    (ts : String) (root : SNode) (r : Rendered)
    (hcopy : opts.copyDefaultStyles = true) (hfs : opts.filterStyles = none)
    (hadj : opts.adjustClonedNode = none) (honc : opts.onclone = none)
    (h : convert opts env ts root = .ok r) :
    ∀ m, m ∈ subclones r.clone →
      ∀ pk, pk ∈ keysOf (uaDefault m.tag) → pk ∈ keysOf m.style := by
  unfold convert at h
  cases hc : cloneNode opts env ts [] initSt root with
  | error e =>
    rw [hc] at h
    exact Except.noConfusion h
  | ok pr =>
    obtain ⟨c, st⟩ := pr
    rw [hc] at h
    rw [Except.ok.injEq] at h
    subst h
    obtain ⟨_, hua⟩ :=
      cloneNode_ua opts env ts hcopy hfs hadj [] initSt root uaInv_initSt c st hc
    show ∀ m, m ∈ subclones (runOncloneTree opts (applyRootStyle opts c)) → _
    simp only [runOncloneTree, honc]
    intro m hm pk hpk
    cases c with
    | mk i tag style src children =>
      simp only [applyRootStyle, Clone.id, Clone.tag, Clone.style, Clone.src,
        Clone.children, subclones, List.mem_cons] at hm
      cases hm with
      | inl hm =>
        subst hm
        simp only [Clone.tag, Clone.style] at hpk ⊢
        refine mem_keys_mergeAssoc_left _ _ pk ?_
        have := hua (.mk i tag style src children) (self_mem_subclones _) pk
        simp only [Clone.tag, Clone.style] at this
        exact this hpk
      | inr hm =>
        refine hua m ?_ pk hpk
        simp only [subclones, List.mem_cons]
        exact Or.inr hm

/-- The style slots of the root clone of a conversion outcome. -/
def rootStyleOf : Except ConvError Rendered → List (String × String)
  | .ok r => r.clone.style
  | .error _ => []

/-- Witness for C8: the untouched `margin` baseline property is explicit
on the root clone of a default-options conversion. -/
theorem C8_default_styles_seeded_witness :
    "margin" ∈ keysOf (rootStyleOf (convert {} exEnv0 "0" exRoot7)) := by
  obtain ⟨r, hr⟩ : ∃ r, convert {} exEnv0 "0" exRoot7 = .ok r := ⟨_, rfl⟩
  have h := C8_default_styles_seeded {} exEnv0 "0" exRoot7 r rfl rfl rfl rfl hr
    r.clone (self_mem_subclones _) "margin"
  rw [hr]
  simp only [rootStyleOf]
  refine h ?_
  have : r.clone.tag = "div" := by
    have := hr
    rw [show convert {} exEnv0 "0" exRoot7
      = convert {} exEnv0 "0" exRoot7 from rfl] at this
    cases hrr : r.clone with
    | mk i tag style src children =>
      have hx : (convert {} exEnv0 "0" exRoot7).map (fun q => q.clone.tag)
          = .ok "div" := rfl
      rw [hr] at hx
      simp only [Except.map, Except.ok.injEq] at hx
      rw [hrr] at hx
      exact hrr ▸ hx
  rw [this]
  decide

/-! Strict versus relaxed style caching: on a tree without
structurally-ambiguous repetition — a node's own signature determines its
ancestor-tag chain — the two cache-key precisions resolve identical
styles everywhere, so whole conversions coincide. -/

/-- The same options with the style-caching mode replaced. -/
def setMode (opts : RenderOptions) (m : StyleCaching) : RenderOptions :=
  { opts with styleCaching := m }

theorem inlineSrc_mode (opts0 : RenderOptions) (env : Env) (ts : String)
    (st : St) (src : Option Url) (m : StyleCaching) :
    inlineSrc (setMode opts0 m) env ts st src = inlineSrc opts0 env ts st src := rfl

theorem preHook_mode (opts0 : RenderOptions) (n : SNode) (c : Clone)
    (st : St) (m : StyleCaching) :
    preHook (setMode opts0 m) n c st = preHook opts0 n c st := rfl

theorem postHook_mode (opts0 : RenderOptions) (n : SNode) (c : Clone)
    (st : St) (m : StyleCaching) :
    postHook (setMode opts0 m) n c st = postHook opts0 n c st := rfl

theorem stepFilter_mode (opts0 : RenderOptions) (st : St) (k : SNode)
    (m : StyleCaching) :
    stepFilter (setMode opts0 m) st k = stepFilter opts0 st k := rfl

theorem effFilter_mode (opts0 : RenderOptions) (k : SNode) (m : StyleCaching) :
    effFilter (setMode opts0 m) k = effFilter opts0 k := rfl

theorem computeStyleK_mode (opts0 : RenderOptions) (chain : List String)
    (s : Sig) (m : StyleCaching) :
    computeStyleK (setMode opts0 m) chain s = computeStyleK opts0 chain s := rfl

/-- No structurally-ambiguous repeated subtrees: among the tree's
(ancestor-tag chain, own signature) occurrences, the signature determines
the chain — each kind of node has a unique ancestor chain. -/
def unambiguous (os : List (List String × Sig)) : Prop :=
  ∀ o1 ∈ os, ∀ o2 ∈ os, o1.2 = o2.2 → o1.1 = o2.1

/-- Soundness of the strict cache: every entry is the cascade computation
at its own key. -/
def strictInv (opts0 : RenderOptions) (st : St) : Prop :=
  ∀ k snap, lookupA k st.styleCache = some snap →
    snap = computeStyleK opts0 k.1 k.2

/-- Soundness of the relaxed cache relative to the occurrence set: every
entry is keyed by the bare signature and holds the cascade computation at
some chain the signature occurs under. -/
def relaxedInv (opts0 : RenderOptions) (os : List (List String × Sig))
    (st : St) : Prop :=
  ∀ k snap, lookupA k st.styleCache = some snap →
    k.1 = [] ∧ ∃ ch, (ch, k.2) ∈ os ∧ snap = computeStyleK opts0 ch k.2

/-- Agreement of the two runs' states on everything but the style cache. -/
def offStyle (st st' : St) : Prop :=
  st.resCache = st'.resCache ∧ st.fetchLog = st'.fetchLog ∧
  st.rawLog = st'.rawLog ∧ st.hookLog = st'.hookLog ∧
  st.filterLog = st'.filterLog

/-- The simulation relation between a strict-mode state and a
relaxed-mode state. -/
def modeRel (opts0 : RenderOptions) (os : List (List String × Sig))
    (st st' : St) : Prop :=
  offStyle st st' ∧ strictInv opts0 st ∧ relaxedInv opts0 os st'

theorem resolveStyle_modes (opts0 : RenderOptions)
    (os : List (List String × Sig)) (hH : unambiguous os)
    (st st' : St) (chain : List String) (s : Sig)
    (hocc : (chain, s) ∈ os) (h : modeRel opts0 os st st')
    (st1 : St) (snap : List (String × String))
    (heq : resolveStyle (setMode opts0 .strict) st chain s = (st1, snap)) :
    ∃ st1', resolveStyle (setMode opts0 .relaxed) st' chain s = (st1', snap) ∧
      modeRel opts0 os st1 st1' := by
  obtain ⟨hoff, hS, hR⟩ := h
  have hsnap : snap = computeStyleK opts0 chain s := by
    unfold resolveStyle at heq
    cases hl : lookupA (styleKey (setMode opts0 .strict) chain s) st.styleCache with
    | some snap0 =>
      rw [hl] at heq
      rw [Prod.mk.injEq] at heq
      have := hS _ _ hl
      rw [heq.2] at this
      exact this
    | none =>
      rw [hl] at heq
      rw [Prod.mk.injEq] at heq
      rw [← heq.2]
      exact (computeStyleK_mode opts0 chain s .strict)
  have hst1 : st1.styleCache
      = st1.styleCache := rfl
  have hS1 : strictInv opts0 st1 ∧ offStyle st1 st := by
    unfold resolveStyle at heq
    cases hl : lookupA (styleKey (setMode opts0 .strict) chain s) st.styleCache with
    | some snap0 =>
      rw [hl] at heq
      rw [Prod.mk.injEq] at heq
      rw [← heq.1]
      exact ⟨hS, ⟨rfl, rfl, rfl, rfl, rfl⟩⟩
    | none =>
      rw [hl] at heq
      rw [Prod.mk.injEq] at heq
      rw [← heq.1]
      constructor
      · intro k snap0 hk
        rw [lookupA_cons] at hk
        split at hk
        · rename_i hkk
          rw [Option.some.injEq] at hk
          rw [← hk, ← hkk]
          exact (computeStyleK_mode opts0 chain s .strict)
        · exact hS _ _ hk
      · exact ⟨rfl, rfl, rfl, rfl, rfl⟩
  unfold resolveStyle
  cases hl' : lookupA (styleKey (setMode opts0 .relaxed) chain s) st'.styleCache with
  | some snap' =>
    obtain ⟨hnil, ch, hchocc, hsnap'⟩ := hR _ _ hl'
    have hch : ch = chain := hH (ch, s) hchocc (chain, s) hocc rfl
    refine ⟨st', ?_, ?_⟩
    · rw [hsnap, hsnap', hch]
      rfl
    · refine ⟨?_, hS1.1, hR⟩
      exact ⟨(hS1.2.1).symm ▸ hoff.1, (hS1.2.2.1).symm ▸ hoff.2.1,
        (hS1.2.2.2.1).symm ▸ hoff.2.2.1, (hS1.2.2.2.2.1).symm ▸ hoff.2.2.2.1,
        (hS1.2.2.2.2.2).symm ▸ hoff.2.2.2.2⟩
  | none =>
    refine ⟨{ st' with styleCache :=
        (styleKey (setMode opts0 .relaxed) chain s,
          computeStyleK (setMode opts0 .relaxed) chain s) :: st'.styleCache },
      ?_, ?_⟩
    · rw [hsnap]
      rfl
    · refine ⟨?_, hS1.1, ?_⟩
      · exact ⟨(hS1.2.1).symm ▸ hoff.1, (hS1.2.2.1).symm ▸ hoff.2.1,
          (hS1.2.2.2.1).symm ▸ hoff.2.2.1, (hS1.2.2.2.2.1).symm ▸ hoff.2.2.2.1,
          (hS1.2.2.2.2.2).symm ▸ hoff.2.2.2.2⟩
      · intro k snap0 hk
        rw [lookupA_cons] at hk
        split at hk
        · rename_i hkk
          rw [Option.some.injEq] at hk
          rw [← hkk]
          refine ⟨rfl, chain, ?_, ?_⟩
          · exact hocc
          · rw [← hk]
            exact (computeStyleK_mode opts0 chain s .relaxed)
        · exact hR _ _ hk

theorem inlineResource_off (opts0 : RenderOptions) (env : Env) (ts : String)
    (st st' : St) (u : Url) (h : offStyle st st') :
    (inlineResource opts0 env ts st u).2 = (inlineResource opts0 env ts st' u).2 ∧
    offStyle (inlineResource opts0 env ts st u).1
      (inlineResource opts0 env ts st' u).1 := by
  unfold inlineResource
  rw [← h.1]
  cases hl : lookupA (u, credFor opts0 u) st.resCache with
  | some r => exact ⟨rfl, h⟩
  | none =>
    refine ⟨rfl, ?_⟩
    exact ⟨by simp [h.1], by simp [h.2.1], by simp [h.2.2.1],
      by simp [h.2.2.2.1], by simp [h.2.2.2.2]⟩

theorem inlineSrc_off_ok (opts0 : RenderOptions) (env : Env) (ts : String)
    (st st' : St) (src : Option Url) (h : offStyle st st')
    (isrc : Option Data) (st2 : St)
    (heq : inlineSrc opts0 env ts st src = .ok (isrc, st2)) :
    ∃ st2', inlineSrc opts0 env ts st' src = .ok (isrc, st2') ∧
      offStyle st2 st2' ∧ st2.styleCache = st.styleCache ∧
      st2'.styleCache = st'.styleCache := by
  have hsc := (inlineSrc_fields opts0 env ts st src isrc st2 heq).1
  unfold inlineSrc at heq ⊢
  cases src with
  | none =>
    rw [Except.ok.injEq, Prod.mk.injEq] at heq
    exact ⟨st', by rw [← heq.1], heq.2 ▸ h, hsc, rfl⟩
  | some u =>
    obtain ⟨hv, hs⟩ := inlineResource_off opts0 env ts st st' u h
    simp only at heq ⊢
    rw [← hv]
    cases hr : resourcePolicy opts0 u (inlineResource opts0 env ts st u).2 with
    | error e =>
      rw [hr] at heq
      exact Except.noConfusion heq
    | ok d =>
      rw [hr] at heq
      rw [Except.ok.injEq, Prod.mk.injEq] at heq
      refine ⟨_, ?_, heq.2 ▸ hs, hsc, (inlineResource_fields opts0 env ts st' u).1⟩
      rw [← heq.1]

theorem inlineSrc_off_error (opts0 : RenderOptions) (env : Env) (ts : String)
    (st st' : St) (src : Option Url) (h : offStyle st st')
    (e : ConvError) (heq : inlineSrc opts0 env ts st src = .error e) :
    inlineSrc opts0 env ts st' src = .error e := by
  unfold inlineSrc at heq ⊢
  cases src with
  | none => exact Except.noConfusion heq
  | some u =>
    obtain ⟨hv, hs⟩ := inlineResource_off opts0 env ts st st' u h
    simp only at heq ⊢
    rw [← hv]
    cases hr : resourcePolicy opts0 u (inlineResource opts0 env ts st u).2 with
    | error e0 =>
      rw [hr] at heq
      exact heq
    | ok d =>
      rw [hr] at heq
      exact Except.noConfusion heq

theorem preHook_off (opts0 : RenderOptions) (n : SNode) (c : Clone)
    (st st' : St) (h : offStyle st st') :
    (preHook opts0 n c st).1 = (preHook opts0 n c st').1 ∧
    offStyle (preHook opts0 n c st).2 (preHook opts0 n c st').2 := by
  unfold preHook
  cases hopt : opts0.adjustClonedNode with
  | none => exact ⟨rfl, h⟩
  | some f =>
    refine ⟨rfl, ?_⟩
    exact ⟨h.1, h.2.1, h.2.2.1, by simp [h.2.2.2.1], h.2.2.2.2⟩

theorem postHook_off (opts0 : RenderOptions) (n : SNode) (c : Clone)
    (st st' : St) (h : offStyle st st') :
    (postHook opts0 n c st).1 = (postHook opts0 n c st').1 ∧
    offStyle (postHook opts0 n c st).2 (postHook opts0 n c st').2 := by
  unfold postHook
  cases hopt : opts0.adjustClonedNode with
  | none => exact ⟨rfl, h⟩
  | some f =>
    refine ⟨rfl, ?_⟩
    exact ⟨h.1, h.2.1, h.2.2.1, by simp [h.2.2.2.1], h.2.2.2.2⟩

theorem stepFilter_off (opts0 : RenderOptions) (st st' : St) (k : SNode)
    (h : offStyle st st') :
    offStyle (stepFilter opts0 st k) (stepFilter opts0 st' k) := by
  unfold stepFilter
  cases hopt : opts0.filter with
  | none => exact h
  | some p =>
    exact ⟨h.1, h.2.1, h.2.2.1, h.2.2.2.1, by simp [h.2.2.2.2]⟩

theorem preHook_off_ex (opts0 : RenderOptions) (n : SNode) (c : Clone)
    (st st' : St) (h : offStyle st st') (c1 : Clone) (st3 : St)
    (heq : preHook opts0 n c st = (c1, st3)) :
    ∃ st3', preHook opts0 n c st' = (c1, st3') ∧ offStyle st3 st3' := by
  obtain ⟨h1, h2⟩ := preHook_off opts0 n c st st' h
  have hfst : (preHook opts0 n c st).1 = c1 := by rw [heq]
  have hfst' : (preHook opts0 n c st').1 = c1 := by
    rw [← h1]
    exact hfst
  have hsnd : (preHook opts0 n c st).2 = st3 := by rw [heq]
  refine ⟨(preHook opts0 n c st').2, ?_, hsnd ▸ h2⟩
  rw [← hfst']

theorem postHook_off_ex (opts0 : RenderOptions) (n : SNode) (c : Clone)
    (st st' : St) (h : offStyle st st') :
    (postHook opts0 n c st).1 = (postHook opts0 n c st').1 ∧
    offStyle (postHook opts0 n c st).2 (postHook opts0 n c st').2 :=
  postHook_off opts0 n c st st' h

theorem strictInv_of_eq (opts0 : RenderOptions) {st st2 : St}
    (hsc : st2.styleCache = st.styleCache) (h : strictInv opts0 st) :
    strictInv opts0 st2 := by
  intro k snap hk
  rw [hsc] at hk
  exact h k snap hk

theorem relaxedInv_of_eq (opts0 : RenderOptions)
    (os : List (List String × Sig)) {st st2 : St}
    (hsc : st2.styleCache = st.styleCache) (h : relaxedInv opts0 os st) :
    relaxedInv opts0 os st2 := by
  intro k snap hk
  rw [hsc] at hk
  exact h k snap hk

/-- Outcome relation of the strict-mode and relaxed-mode runs. -/
def modeOutRel (opts0 : RenderOptions) (os : List (List String × Sig)) :
    Except ConvError (Clone × St) → Except ConvError (Clone × St) → Prop
  | .error e, .error e' => e = e'
  | .ok (c, st), .ok (c', st') => c = c' ∧ modeRel opts0 os st st'
  | _, _ => False

/-- The same relation for child-list outcomes. -/
def modeOutRelL (opts0 : RenderOptions) (os : List (List String × Sig)) :
    Except ConvError (List Clone × St) → Except ConvError (List Clone × St) → Prop
  | .error e, .error e' => e = e'
  | .ok (cs, st), .ok (cs', st') => cs = cs' ∧ modeRel opts0 os st st'
  | _, _ => False

theorem cloneNode_modes (opts0 : RenderOptions) (env : Env) (ts : String)
    (os : List (List String × Sig)) (hH : unambiguous os) :
    ∀ (chain : List String) (st : St) (n : SNode),
      (∀ o, o ∈ occs chain n → o ∈ os) →
      ∀ st', modeRel opts0 os st st' →
        modeOutRel opts0 os
          (cloneNode (setMode opts0 .strict) env ts chain st n)
          (cloneNode (setMode opts0 .relaxed) env ts chain st' n) := by
  refine cloneNode.induct (setMode opts0 .strict) env ts
    (fun chain st n => (∀ o, o ∈ occs chain n → o ∈ os) →
      ∀ st', modeRel opts0 os st st' →
        modeOutRel opts0 os
          (cloneNode (setMode opts0 .strict) env ts chain st n)
          (cloneNode (setMode opts0 .relaxed) env ts chain st' n))
    (fun chain st l => (∀ o, o ∈ occsL chain l → o ∈ os) →
      ∀ st', modeRel opts0 os st st' →
        modeOutRelL opts0 os
          (cloneKids (setMode opts0 .strict) env ts chain st l)
          (cloneKids (setMode opts0 .relaxed) env ts chain st' l))
    ?_ ?_ ?_ ?_ ?_ ?_ ?_ ?_
  · intro chain st i tag styles src w hh children st1 snap hres e0 hinl
      hsub st' hrel
    have hocc : (chain, (⟨tag, styles, src⟩ : Sig)) ∈ os := by
      refine hsub _ ?_
      simp [occs]
    obtain ⟨st1', hres', hrel1⟩ :=
      resolveStyle_modes opts0 os hH st st' chain ⟨tag, styles, src⟩ hocc hrel
        st1 snap hres
    rw [inlineSrc_mode] at hinl
    have hinl' := inlineSrc_off_error opts0 env ts st1 st1' src hrel1.1 e0 hinl
    simp only [cloneNode, hres, hres', inlineSrc_mode, hinl, hinl']
    exact rfl
  · intro chain st i tag styles src w hh children st1 snap hres isrc st2 hinl
      c1 st3 hpre e0 hkids ih hsub st' hrel
    have hocc : (chain, (⟨tag, styles, src⟩ : Sig)) ∈ os := by
      refine hsub _ ?_
      simp [occs]
    obtain ⟨st1', hres', hrel1⟩ :=
      resolveStyle_modes opts0 os hH st st' chain ⟨tag, styles, src⟩ hocc hrel
        st1 snap hres
    rw [inlineSrc_mode] at hinl
    obtain ⟨st2', hinl', hoff2, hsc2, hsc2'⟩ :=
      inlineSrc_off_ok opts0 env ts st1 st1' src hrel1.1 isrc st2 hinl
    have hrel2 : modeRel opts0 os st2 st2' :=
      ⟨hoff2, strictInv_of_eq opts0 hsc2 hrel1.2.1,
        relaxedInv_of_eq opts0 os hsc2' hrel1.2.2⟩
    rw [preHook_mode] at hpre
    obtain ⟨st3', hpre', hoff3⟩ :=
      preHook_off_ex opts0 (.mk i tag styles src w hh children)
        (.mk i tag snap isrc []) st2 st2' hrel2.1 c1 st3 hpre
    have hsc3 : st3.styleCache = st2.styleCache := by
      have := (preHook_fields opts0 (.mk i tag styles src w hh children)
        (.mk i tag snap isrc []) st2).2.1
      rwa [hpre] at this
    have hsc3' : st3'.styleCache = st2'.styleCache := by
      have := (preHook_fields opts0 (.mk i tag styles src w hh children)
        (.mk i tag snap isrc []) st2').2.1
      rwa [hpre'] at this
    have hrel3 : modeRel opts0 os st3 st3' :=
      ⟨hoff3, strictInv_of_eq opts0 hsc3 hrel2.2.1,
        relaxedInv_of_eq opts0 os hsc3' hrel2.2.2⟩
    have hsubk : ∀ o, o ∈ occsL (chain ++ [tag]) children → o ∈ os :=
      fun o ho => hsub o (by simp [occs]; exact Or.inr ho)
    have ihr := ih hsubk st3' hrel3
    rw [hkids] at ihr
    cases hk2 : cloneKids (setMode opts0 .relaxed) env ts (chain ++ [tag])
        st3' children with
    | error e2 =>
      rw [hk2] at ihr
      have he : e0 = e2 := ihr
      simp only [cloneNode, hres, hres', inlineSrc_mode, hinl, hinl',
        preHook_mode, hpre, hpre', hkids, hk2]
      exact he
    | ok p2 =>
      rw [hk2] at ihr
      obtain ⟨cs2, st42⟩ := p2
      exact absurd ihr (by simp [modeOutRelL])
  · intro chain st i tag styles src w hh children st1 snap hres isrc st2 hinl
      c1 st3 hpre kids st4 hkids ih hsub st' hrel
    have hocc : (chain, (⟨tag, styles, src⟩ : Sig)) ∈ os := by
      refine hsub _ ?_
      simp [occs]
    obtain ⟨st1', hres', hrel1⟩ :=
      resolveStyle_modes opts0 os hH st st' chain ⟨tag, styles, src⟩ hocc hrel
        st1 snap hres
    rw [inlineSrc_mode] at hinl
    obtain ⟨st2', hinl', hoff2, hsc2, hsc2'⟩ :=
      inlineSrc_off_ok opts0 env ts st1 st1' src hrel1.1 isrc st2 hinl
    have hrel2 : modeRel opts0 os st2 st2' :=
      ⟨hoff2, strictInv_of_eq opts0 hsc2 hrel1.2.1,
        relaxedInv_of_eq opts0 os hsc2' hrel1.2.2⟩
    rw [preHook_mode] at hpre
    obtain ⟨st3', hpre', hoff3⟩ :=
      preHook_off_ex opts0 (.mk i tag styles src w hh children)
        (.mk i tag snap isrc []) st2 st2' hrel2.1 c1 st3 hpre
    have hsc3 : st3.styleCache = st2.styleCache := by
      have := (preHook_fields opts0 (.mk i tag styles src w hh children)
        (.mk i tag snap isrc []) st2).2.1
      rwa [hpre] at this
    have hsc3' : st3'.styleCache = st2'.styleCache := by
      have := (preHook_fields opts0 (.mk i tag styles src w hh children)
        (.mk i tag snap isrc []) st2').2.1
      rwa [hpre'] at this
    have hrel3 : modeRel opts0 os st3 st3' :=
      ⟨hoff3, strictInv_of_eq opts0 hsc3 hrel2.2.1,
        relaxedInv_of_eq opts0 os hsc3' hrel2.2.2⟩
    have hsubk : ∀ o, o ∈ occsL (chain ++ [tag]) children → o ∈ os :=
      fun o ho => hsub o (by simp [occs]; exact Or.inr ho)
    have ihr := ih hsubk st3' hrel3
    rw [hkids] at ihr
    cases hk2 : cloneKids (setMode opts0 .relaxed) env ts (chain ++ [tag])
        st3' children with
    | error e2 =>
      rw [hk2] at ihr
      exact absurd ihr (by simp [modeOutRelL])
    | ok p2 =>
      rw [hk2] at ihr
      obtain ⟨kids2, st42⟩ := p2
      obtain ⟨hkeq, hrel4⟩ := ihr
      obtain ⟨hpo1, hpo2⟩ :=
        postHook_off_ex opts0 (.mk i tag styles src w hh children)
          (c1.attach kids) st4 st42 hrel4.1
      have hsc4 : (postHook opts0 (.mk i tag styles src w hh children)
          (c1.attach kids) st4).2.styleCache = st4.styleCache :=
        (postHook_fields opts0 _ _ st4).2.1
      have hsc4' : (postHook opts0 (.mk i tag styles src w hh children)
          (c1.attach kids) st42).2.styleCache = st42.styleCache :=
        (postHook_fields opts0 _ _ st42).2.1
      simp only [cloneNode, hres, hres', inlineSrc_mode, hinl, hinl',
        preHook_mode, hpre, hpre', hkids, hk2, postHook_mode]
      rw [← hkeq]
      show (postHook opts0 _ (c1.attach kids) st4).1
            = (postHook opts0 _ (c1.attach kids) st42).1 ∧
          modeRel opts0 os (postHook opts0 _ (c1.attach kids) st4).2
            (postHook opts0 _ (c1.attach kids) st42).2
      exact ⟨hpo1, hpo2, strictInv_of_eq opts0 hsc4 hrel4.2.1,
        relaxedInv_of_eq opts0 os hsc4' hrel4.2.2⟩
  · intro chain st hsub st' hrel
    simp only [cloneKids]
    exact ⟨rfl, hrel⟩
  · intro chain st k rest hf e0 hcn ih hsub st' hrel
    have hf0 : effFilter opts0 k = true := by
      rw [← effFilter_mode opts0 k .strict]
      exact hf
    have hsubk : ∀ o, o ∈ occs chain k → o ∈ os :=
      fun o ho => hsub o (by simp [occsL, List.mem_append]; exact Or.inl ho)
    have hrelf : modeRel opts0 os (stepFilter opts0 st k)
        (stepFilter opts0 st' k) :=
      ⟨stepFilter_off opts0 st st' k hrel.1,
        strictInv_of_eq opts0 (stepFilter_fields opts0 st k).2.1 hrel.2.1,
        relaxedInv_of_eq opts0 os (stepFilter_fields opts0 st' k).2.1 hrel.2.2⟩
    have ihr := ih hsubk (stepFilter opts0 st' k) hrelf
    rw [hcn] at ihr
    have hcn0 := hcn
    rw [stepFilter_mode] at hcn0
    cases hc2 : cloneNode (setMode opts0 .relaxed) env ts chain
        (stepFilter opts0 st' k) k with
    | error e2 =>
      rw [hc2] at ihr
      simp only [cloneKids, effFilter_mode, hf0, if_true, stepFilter_mode,
        hcn0, hc2]
      exact ihr
    | ok p2 =>
      rw [hc2] at ihr
      obtain ⟨c2, st12⟩ := p2
      exact absurd ihr (by simp [modeOutRel])
  · intro chain st k rest hf c st1 hcn e0 hck ih1 ih2 hsub st' hrel
    have hf0 : effFilter opts0 k = true := by
      rw [← effFilter_mode opts0 k .strict]
      exact hf
    have hsubk : ∀ o, o ∈ occs chain k → o ∈ os :=
      fun o ho => hsub o (by simp [occsL, List.mem_append]; exact Or.inl ho)
    have hsubr : ∀ o, o ∈ occsL chain rest → o ∈ os :=
      fun o ho => hsub o (by simp [occsL, List.mem_append]; exact Or.inr ho)
    have hrelf : modeRel opts0 os (stepFilter opts0 st k)
        (stepFilter opts0 st' k) :=
      ⟨stepFilter_off opts0 st st' k hrel.1,
        strictInv_of_eq opts0 (stepFilter_fields opts0 st k).2.1 hrel.2.1,
        relaxedInv_of_eq opts0 os (stepFilter_fields opts0 st' k).2.1 hrel.2.2⟩
    have ihr1 := ih1 hsubk (stepFilter opts0 st' k) hrelf
    rw [hcn] at ihr1
    cases hc2 : cloneNode (setMode opts0 .relaxed) env ts chain
        (stepFilter opts0 st' k) k with
    | error e2 =>
      rw [hc2] at ihr1
      exact absurd ihr1 (by simp [modeOutRel])
    | ok p2 =>
      rw [hc2] at ihr1
      obtain ⟨c2, st12⟩ := p2
      obtain ⟨hceq, hrel1⟩ := ihr1
      have hcn0 := hcn
      rw [stepFilter_mode] at hcn0
      have ihr2 := ih2 hsubr st12 hrel1
      rw [hck] at ihr2
      cases hk2 : cloneKids (setMode opts0 .relaxed) env ts chain st12 rest with
      | error e2 =>
        rw [hk2] at ihr2
        simp only [cloneKids, effFilter_mode, hf0, if_true, stepFilter_mode,
          hcn0, hck, hc2, hk2]
        exact ihr2
      | ok p3 =>
        rw [hk2] at ihr2
        obtain ⟨cs3, st23⟩ := p3
        exact absurd ihr2 (by simp [modeOutRelL])
  · intro chain st k rest hf c st1 hcn kids st4 hck ih1 ih2 hsub st' hrel
    have hf0 : effFilter opts0 k = true := by
      rw [← effFilter_mode opts0 k .strict]
      exact hf
    have hsubk : ∀ o, o ∈ occs chain k → o ∈ os :=
      fun o ho => hsub o (by simp [occsL, List.mem_append]; exact Or.inl ho)
    have hsubr : ∀ o, o ∈ occsL chain rest → o ∈ os :=
      fun o ho => hsub o (by simp [occsL, List.mem_append]; exact Or.inr ho)
    have hrelf : modeRel opts0 os (stepFilter opts0 st k)
        (stepFilter opts0 st' k) :=
      ⟨stepFilter_off opts0 st st' k hrel.1,
        strictInv_of_eq opts0 (stepFilter_fields opts0 st k).2.1 hrel.2.1,
        relaxedInv_of_eq opts0 os (stepFilter_fields opts0 st' k).2.1 hrel.2.2⟩
    have ihr1 := ih1 hsubk (stepFilter opts0 st' k) hrelf
    rw [hcn] at ihr1
    cases hc2 : cloneNode (setMode opts0 .relaxed) env ts chain
        (stepFilter opts0 st' k) k with
    | error e2 =>
      rw [hc2] at ihr1
      exact absurd ihr1 (by simp [modeOutRel])
    | ok p2 =>
      rw [hc2] at ihr1
      obtain ⟨c2, st12⟩ := p2
      obtain ⟨hceq, hrel1⟩ := ihr1
      have ihr2 := ih2 hsubr st12 hrel1
      rw [hck] at ihr2
      cases hk2 : cloneKids (setMode opts0 .relaxed) env ts chain st12 rest with
      | error e2 =>
        rw [hk2] at ihr2
        exact absurd ihr2 (by simp [modeOutRelL])
      | ok p3 =>
        rw [hk2] at ihr2
        obtain ⟨cs3, st23⟩ := p3
        obtain ⟨hcs, hrel2⟩ := ihr2
        have hcn0 := hcn
        rw [stepFilter_mode] at hcn0
        simp only [cloneKids, effFilter_mode, hf0, if_true, stepFilter_mode,
          hcn0, hck, hc2, hk2]
        exact ⟨by rw [hceq, hcs], hrel2⟩
  · intro chain st k rest hf ih hsub st' hrel
    have hf0 : effFilter opts0 k = false := by
      have hne : effFilter opts0 k ≠ true := by
        rw [← effFilter_mode opts0 k .strict]
        exact hf
      exact Bool.eq_false_iff.mpr hne
    have hsubr : ∀ o, o ∈ occsL chain rest → o ∈ os :=
      fun o ho => hsub o (by simp [occsL, List.mem_append]; exact Or.inr ho)
    have hrelf : modeRel opts0 os (stepFilter opts0 st k)
        (stepFilter opts0 st' k) :=
      ⟨stepFilter_off opts0 st st' k hrel.1,
        strictInv_of_eq opts0 (stepFilter_fields opts0 st k).2.1 hrel.2.1,
        relaxedInv_of_eq opts0 os (stepFilter_fields opts0 st' k).2.1 hrel.2.2⟩
    have ihr := ih hsubr (stepFilter opts0 st' k) hrelf
    simp only [cloneKids, effFilter_mode, hf0, if_false, stepFilter_mode]
    exact ihr

theorem applyRootStyle_mode (opts0 : RenderOptions) (c : Clone)
    (m : StyleCaching) :
    applyRootStyle (setMode opts0 m) c = applyRootStyle opts0 c := rfl

theorem runOncloneTree_mode (opts0 : RenderOptions) (c : Clone)
    (m : StyleCaching) :
    runOncloneTree (setMode opts0 m) c = runOncloneTree opts0 c := rfl

/-- C6: on a source tree with no structurally-ambiguous repeated subtrees
— the spec's condition, read as: a node's own signature determines a
unique ancestor-tag chain among the tree's occurrences — converting under
'strict' style caching and converting under 'relaxed' style caching
produce identical resolved styles on every clone; indeed the whole
conversion outcomes coincide. -/
theorem C6_style_caching_equivalent (opts : RenderOptions) (env : Env)
    (ts : String) (root : SNode) (hH : unambiguous (occs [] root)) :
    convert (setMode opts .strict) env ts root
      = convert (setMode opts .relaxed) env ts root := by
  have hrel0 : modeRel opts (occs [] root) initSt initSt := by
    refine ⟨⟨rfl, rfl, rfl, rfl, rfl⟩, ?_, ?_⟩
    · intro k snap hk
      simp [initSt, lookupA] at hk
    · intro k snap hk
      simp [initSt, lookupA] at hk
  have hmain := cloneNode_modes opts env ts (occs [] root) hH [] initSt root
    (fun o ho => ho) initSt hrel0
  unfold convert
  cases h1 : cloneNode (setMode opts .strict) env ts [] initSt root with
  | error e1 =>
    rw [h1] at hmain
    cases h2 : cloneNode (setMode opts .relaxed) env ts [] initSt root with
    | error e2 =>
      rw [h2] at hmain
      have he : e1 = e2 := hmain
      rw [he]
    | ok p2 =>
      rw [h2] at hmain
      obtain ⟨cR, stR⟩ := p2
      exact absurd hmain (by simp [modeOutRel])
  | ok p1 =>
    obtain ⟨cS, stS⟩ := p1
    rw [h1] at hmain
    cases h2 : cloneNode (setMode opts .relaxed) env ts [] initSt root with
    | error e2 =>
      rw [h2] at hmain
      exact absurd hmain (by simp [modeOutRel])
    | ok p2 =>
      obtain ⟨cR, stR⟩ := p2
      rw [h2] at hmain
      obtain ⟨hcEq, hrel⟩ := hmain
      rw [hcEq]
      dsimp only
      rw [hrel.1.2.1, hrel.1.2.2.1, hrel.1.2.2.2.1, hrel.1.2.2.2.2]
      rfl

/-- A tree with two structurally identical spans under the same ancestor
chain: repeated, but not ambiguously (one chain per signature). -/
def exTree6 : SNode :=
  .mk 0 "div" [] none 10 10
    [.mk 1 "span" [("a", "1")] none 1 1 [],
     .mk 2 "span" [("a", "1")] none 1 1 []]

/-- Witness for C6: on the repeated-span tree, the strict-mode and
relaxed-mode conversions coincide. -/
theorem C6_style_caching_equivalent_witness :
    convert (setMode {} .strict) exEnv0 "0" exTree6
      = convert (setMode {} .relaxed) exEnv0 "0" exTree6 := by
  refine C6_style_caching_equivalent {} exEnv0 "0" exTree6 ?_
  unfold unambiguous
  decide

end DomToImageMore
